import Mathlib

/-!
A verification development for the `DataManager` persona of the safe_vault
repository (`src/personas/data_manager.rs`).  The Rust code is shallowly
embedded: hash maps become association lists, hash sets become lists with
insert-if-absent, `Instant` timestamps become elapsed ages in seconds, and the
external collaborator crates (chunk store, accumulator, routing) are modelled
from the specification where noted.
-/

namespace Vault

/-- The overlay name of a node or datum (an XOR-metric key). -/
abbrev XorName := Nat

/-- `DataIdentifier` from the routing crate, as used by the data manager:
a discriminated identifier carrying the overlay key. -/
inductive DataIdentifier where
  | Immutable (name : XorName)
  | Structured (name : XorName) (tag : Nat)
  | PubAppendable (name : XorName)
  | PrivAppendable (name : XorName)
deriving DecidableEq

/-- The overlay key of an identifier (`DataIdentifier::name`). -/
def DataIdentifier.name : DataIdentifier → XorName
  | .Immutable n => n
  | .Structured n _ => n
  | .PubAppendable n => n
  | .PrivAppendable n => n

/-- `IdAndVersion` (data_manager.rs line 50): a data identifier together with a
version; for immutable data the version is always 0. -/
abbrev IdAndVersion := DataIdentifier × Nat

/-- Structured data (routing crate): versioned, deletable payload.  `validSize`
abstracts the routing crate's `validate_size` size check, and `deleted` its
`is_deleted` tombstone state. -/
structure StructuredData where
  name : XorName
  tag : Nat
  version : Nat
  deleted : Bool
  payload : List Nat
  validSize : Bool
deriving DecidableEq

/-- Appendable data (routing crate): versioned, with a set `data` of appended
items (items abstracted as naturals).  `validSize` abstracts `validate_size`. -/
structure AppendableData where
  name : XorName
  version : Nat
  data : Finset Nat
  validSize : Bool
deriving DecidableEq

/-- The `Data` payload enumeration of the routing crate, with the variants the
data manager dispatches on. -/
inductive Data where
  | Immutable (name : XorName)
  | Structured (sd : StructuredData)
  | PubAppendable (ad : AppendableData)
  | PrivAppendable (ad : AppendableData)
deriving DecidableEq

/-- `Data::identifier` of the routing crate. -/
def Data.identifier : Data → DataIdentifier
  | .Immutable n => .Immutable n
  | .Structured sd => .Structured sd.name sd.tag
  | .PubAppendable ad => .PubAppendable ad.name
  | .PrivAppendable ad => .PrivAppendable ad.name

/-- `Data::name` of the routing crate. -/
def Data.name (d : Data) : XorName := d.identifier.name

/-- `id_and_version_of` (data_manager.rs lines 365-373). -/
def idAndVersionOf (d : Data) : IdAndVersion :=
  (d.identifier,
   match d with
   | .Structured sd => sd.version
   | .PubAppendable ad => ad.version
   | .PrivAppendable ad => ad.version
   | .Immutable _ => 0)

/-- Modelled from the spec: `Data::validate_size` of the routing crate (the
size guard of §4.4.3/§4.4.5), abstracted as a per-datum flag. -/
def Data.validateSize : Data → Bool
  | .Immutable _ => true
  | .Structured sd => sd.validSize
  | .PubAppendable ad => ad.validSize
  | .PrivAppendable ad => ad.validSize

/-- An abstract byte size for a datum, used only for chunk-store accounting. -/
def Data.size : Data → Nat
  | .Immutable _ => 1
  | .Structured sd => sd.payload.length + 1
  | .PubAppendable ad => ad.data.card + 1
  | .PrivAppendable ad => ad.data.card + 1

/-- `PendingMutationType` (data_manager.rs lines 65-71). -/
inductive PendingMutationType where
  | Append
  | Put
  | Post
  | Delete
deriving DecidableEq

/-- The routing `Authority` variants the data manager sends to and from. -/
inductive Authority where
  | Client (name : XorName)
  | ClientManager (name : XorName)
  | NaeManager (name : XorName)
  | ManagedNode (name : XorName)
deriving DecidableEq

/-- An injective numeric encoding of a list of naturals. -/
def encodeListNat (l : List Nat) : Nat :=
  l.foldr (fun a r => Nat.pair a r + 1) 0

/-- An injective numeric encoding of a finite set of naturals. -/
def encodeFinsetNat (s : Finset Nat) : Nat :=
  s.sum (fun i => 2 ^ i)

/-- Numeric tag of a mutation kind, for hashing. -/
def PendingMutationType.encode : PendingMutationType → Nat
  | .Append => 0
  | .Put => 1
  | .Post => 2
  | .Delete => 3

/-- A numeric encoding of a datum, for hashing. -/
def Data.encode : Data → Nat
  | .Immutable n => Nat.pair 0 n
  | .Structured sd =>
      Nat.pair 1 (Nat.pair sd.name (Nat.pair sd.tag (Nat.pair sd.version
        (Nat.pair (cond sd.deleted 1 0)
          (Nat.pair (encodeListNat sd.payload) (cond sd.validSize 1 0))))))
  | .PubAppendable ad =>
      Nat.pair 2 (Nat.pair ad.name (Nat.pair ad.version
        (Nat.pair (encodeFinsetNat ad.data) (cond ad.validSize 1 0))))
  | .PrivAppendable ad =>
      Nat.pair 3 (Nat.pair ad.name (Nat.pair ad.version
        (Nat.pair (encodeFinsetNat ad.data) (cond ad.validSize 1 0))))

/-- Modelled from the spec (§6): the 64-bit big-endian SipHash of the canonical
serialisation of `(data, mutation kind)` (maidsafe_utilities, not in the
provided sources), modelled as a pairing of injective encodings reduced
modulo 2^64.  Serialisation of in-memory data is total here, so the
`Err`-on-serialise path of `insert_pending_write` never triggers. -/
def sipHashOf (d : Data) (mt : PendingMutationType) : Nat :=
  Nat.pair d.encode mt.encode % 2 ^ 64

/-- `PendingWrite` (data_manager.rs lines 54-63).  The `Instant` timestamp is
modelled by `age`, the elapsed time in seconds since the write was created
(0 at creation). -/
structure PendingWrite where
  hash : Nat
  data : Data
  age : Nat
  src : Authority
  dst : Authority
  messageId : Nat
  mutateType : PendingMutationType
  rejected : Bool
deriving DecidableEq

/-- `RefreshData` (data_manager.rs lines 1173-1174): the group-to-self approval
token carrying an id-and-version and the pending write's hash. -/
structure RefreshData where
  idv : IdAndVersion
  hash : Nat
deriving DecidableEq

/-- `MAX_FULL_PERCENT` (data_manager.rs line 36). -/
def MAX_FULL_PERCENT : Nat := 50

/-- Modelled from the spec (glossary, §3): the crate-root constant
`GROUP_SIZE`, the close-group size G; the crate root is not among the provided
sources. -/
def GROUP_SIZE : Nat := 8

/-- `ACCUMULATOR_QUORUM` (data_manager.rs line 38). -/
def ACCUMULATOR_QUORUM : Nat := GROUP_SIZE / 2 + 1

/-- `PENDING_WRITE_TIMEOUT_SECS` (data_manager.rs line 42). -/
def PENDING_WRITE_TIMEOUT_SECS : Nat := 60

/-- `GET_FROM_DATA_HOLDER_TIMEOUT_SECS` (data_manager.rs line 44). -/
def GET_FROM_DATA_HOLDER_TIMEOUT_SECS : Nat := 60

section AssocList

variable {κ : Type} {α : Type} [DecidableEq κ]

/-- First value stored under key `k` in an association list (hash-map model). -/
def assocGet : List (κ × α) → κ → Option α
  | [], _ => none
  | e :: rest, k => if e.1 = k then some e.2 else assocGet rest k

/-- Value under `k`, or a default. -/
def assocGetD (m : List (κ × α)) (k : κ) (d : α) : α :=
  (assocGet m k).getD d

/-- Replace the first binding of `k`, or append one if `k` is absent
(the `HashMap::insert` / `entry().or_insert` model). -/
def assocSet : List (κ × α) → κ → α → List (κ × α)
  | [], k, v => [(k, v)]
  | e :: rest, k, v => if e.1 = k then (k, v) :: rest else e :: assocSet rest k v

/-- Remove every binding of `k` (the `HashMap::remove` model). -/
def assocRemove (m : List (κ × α)) (k : κ) : List (κ × α) :=
  m.filter (fun e => !(e.1 == k))

theorem assocGet_set_self (m : List (κ × α)) (k : κ) (v : α) :
    assocGet (assocSet m k v) k = some v := by
  induction m with
  | nil => simp [assocSet, assocGet]
  | cons e rest ih =>
    by_cases he : e.1 = k
    · simp [assocSet, assocGet, he]
    · simp [assocSet, assocGet, he, ih]

theorem assocGet_set_ne (m : List (κ × α)) (k k' : κ) (v : α) (h : k' ≠ k) :
    assocGet (assocSet m k v) k' = assocGet m k' := by
  have hkk : ¬(k = k') := fun hc => h hc.symm
  induction m with
  | nil => simp [assocSet, assocGet, hkk]
  | cons e rest ih =>
    by_cases he : e.1 = k
    · subst he
      simp [assocSet, assocGet, hkk]
    · have h1 : assocSet (e :: rest) k v = e :: assocSet rest k v := by
        simp [assocSet, he]
      rw [h1]
      by_cases he' : e.1 = k'
      · simp [assocGet, he']
      · simp [assocGet, he', ih]

theorem assocGetD_set_self (m : List (κ × α)) (k : κ) (v d : α) :
    assocGetD (assocSet m k v) k d = v := by
  simp [assocGetD, assocGet_set_self]

theorem assocGet_remove_ne (m : List (κ × α)) (k k' : κ) (h : k' ≠ k) :
    assocGet (assocRemove m k) k' = assocGet m k' := by
  have hkk : ¬(k = k') := fun hc => h hc.symm
  induction m with
  | nil => rfl
  | cons e rest ih =>
    by_cases he : e.1 = k
    · subst he
      simpa [assocRemove, List.filter_cons, assocGet, hkk] using ih
    · have h1 : assocRemove (e :: rest) k = e :: assocRemove rest k := by
        simp [assocRemove, List.filter_cons, he]
      rw [h1]
      by_cases he' : e.1 = k'
      · simp [assocGet, he']
      · simp [assocGet, he', ih]

end AssocList

/-- `Cache` (data_manager.rs lines 73-85).  Hash maps are association lists and
holder sets are lists maintained with insert-if-absent; the pure logging
counters (`ongoing_gets_count`, `data_holder_items_count`, `logging_time`) are
omitted since they only feed the periodic status log. -/
structure Cache where
  unneededChunks : List DataIdentifier
  dataHolders : List (XorName × List IdAndVersion)
  ongoingGets : List (XorName × (Nat × IdAndVersion))
  pendingWrites : List (DataIdentifier × List PendingWrite)
deriving DecidableEq

/-- The empty cache (`Cache::default`, data_manager.rs lines 87-99). -/
def Cache.default : Cache := ⟨[], [], [], []⟩

/-- `Cache::insert_into_ongoing_gets` (data_manager.rs lines 102-104); the
fresh `Instant::now()` timestamp is an elapsed age of 0. -/
def Cache.insertIntoOngoingGets (c : Cache) (idleHolder : XorName)
    (dataIdv : IdAndVersion) : Cache :=
  { c with ongoingGets := assocSet c.ongoingGets idleHolder (0, dataIdv) }

/-- `Cache::handle_get_success` (data_manager.rs lines 106-115): drop the
outstanding Get from `src` unless it was for a different id (then re-insert),
and remove `(dataId, version)` from every peer's holder set. -/
def Cache.handleGetSuccess (c : Cache) (src : XorName) (dataId : DataIdentifier)
    (version : Nat) : Cache :=
  let c1 :=
    match assocGet c.ongoingGets src with
    | some (timestamp, expectedIdv) =>
      let removed := { c with ongoingGets := assocRemove c.ongoingGets src }
      if expectedIdv.1 ≠ dataId then
        { removed with
            ongoingGets := assocSet removed.ongoingGets src (timestamp, expectedIdv) }
      else removed
    | none => c
  { c1 with
      dataHolders :=
        c1.dataHolders.map (fun e => (e.1, e.2.filter (fun idv => !(idv == (dataId, version))))) }

/-- `Cache::handle_get_failure` (data_manager.rs lines 117-126): true iff there
was an outstanding Get from `src` for exactly `dataId` (which is removed);
a mismatched entry is re-inserted. -/
def Cache.handleGetFailure (c : Cache) (src : XorName) (dataId : DataIdentifier) :
    Bool × Cache :=
  match assocGet c.ongoingGets src with
  | some (timestamp, dataIdv) =>
    let removed := { c with ongoingGets := assocRemove c.ongoingGets src }
    if dataIdv.1 = dataId then (true, removed)
    else (false,
      { removed with
          ongoingGets := assocSet removed.ongoingGets src (timestamp, dataIdv) })
  | none => (false, c)

/-- `Cache::register_data_with_holder` (data_manager.rs lines 128-134): only if
some peer is already known to hold `dataIdv` is `src` additionally recorded as
a holder; returns whether it did so. -/
def Cache.registerDataWithHolder (c : Cache) (src : XorName) (dataIdv : IdAndVersion) :
    Bool × Cache :=
  if c.dataHolders.any (fun e => e.2.contains dataIdv) then
    let cur := assocGetD c.dataHolders src []
    let cur' := if cur.contains dataIdv then cur else cur ++ [dataIdv]
    (true, { c with dataHolders := assocSet c.dataHolders src cur' })
  else (false, c)

/-- `Cache::add_records` (data_manager.rs lines 136-140): unconditionally record
every peer in `holders` as a holder of `dataIdv`. -/
def Cache.addRecords (c : Cache) (dataIdv : IdAndVersion) (holders : List XorName) : Cache :=
  holders.foldl (fun c holder =>
    let cur := assocGetD c.dataHolders holder []
    let cur' := if cur.contains dataIdv then cur else cur ++ [dataIdv]
    { c with dataHolders := assocSet c.dataHolders holder cur' }) c

/-- `Cache::is_in_unneeded` (data_manager.rs lines 142-144). -/
def Cache.isInUnneeded (c : Cache) (dataId : DataIdentifier) : Bool :=
  c.unneededChunks.contains dataId

/-- `Cache::add_as_unneeded` (data_manager.rs lines 146-148). -/
def Cache.addAsUnneeded (c : Cache) (dataId : DataIdentifier) : Cache :=
  { c with unneededChunks := c.unneededChunks ++ [dataId] }

/-- The set of records collected by `chain_records_in_cache` before unneeded
chunks are removed: all holder entries, all outstanding Gets, and the given
store records (a hash set, modelled as a deduplicated list). -/
def Cache.allCacheRecords (c : Cache) (recordsInStore : List IdAndVersion) :
    List IdAndVersion :=
  ((c.dataHolders.flatMap (·.2)) ++ c.ongoingGets.map (·.2.2) ++ recordsInStore).dedup

/-- `Cache::chain_records_in_cache` (data_manager.rs lines 150-163): the union
of holder entries, outstanding Gets and store records, minus `(data_id, 0)` for
every unneeded chunk. -/
def Cache.chainRecordsInCache (c : Cache) (recordsInStore : List IdAndVersion) :
    List IdAndVersion :=
  c.unneededChunks.foldl
    (fun records dataId => records.filter (fun r => !(r == (dataId, 0))))
    (c.allCacheRecords recordsInStore)

/-- `Cache::pop_unneeded_chunk` (data_manager.rs lines 177-179). -/
def Cache.popUnneededChunk (c : Cache) : Option DataIdentifier × Cache :=
  match c.unneededChunks with
  | [] => (none, c)
  | id :: rest => (some id, { c with unneededChunks := rest })

/-- The split of a pending-write list at its first expired entry, as performed
by `remove_expired_writes` via `position`/`split_off`: the kept prefix (every
write before the first expired one) and the removed suffix (from the first
expired write on) — that is, a span at the expiry predicate. -/
def splitExpired (writes : List PendingWrite) : List PendingWrite × List PendingWrite :=
  (writes.takeWhile (fun w => !(decide (PENDING_WRITE_TIMEOUT_SECS < w.age))),
   writes.dropWhile (fun w => !(decide (PENDING_WRITE_TIMEOUT_SECS < w.age))))

/-- `Cache::remove_expired_writes` (data_manager.rs lines 287-307): split each
list at its first expired write, collect the removed suffixes, and drop the
keys whose lists became empty. -/
def Cache.removeExpiredWrites (c : Cache) : List PendingWrite × Cache :=
  let expiredWrites := c.pendingWrites.flatMap (fun e => (splitExpired e.2).2)
  let kept := (c.pendingWrites.map (fun e => (e.1, (splitExpired e.2).1))).filter
    (fun e => !e.2.isEmpty)
  (expiredWrites, { c with pendingWrites := kept })

/-- `Cache::insert_pending_write` (data_manager.rs lines 311-344): hash the
pair `(data, kind)`, prepend the new write under `data.identifier`, and return
a `RefreshData` iff the write is not rejected and every prior write for that
id is rejected. -/
def Cache.insertPendingWrite (c : Cache) (data : Data) (mutateType : PendingMutationType)
    (src dst : Authority) (msgId : Nat) (rejected : Bool) :
    Option RefreshData × Cache :=
  let hash := sipHashOf data mutateType
  let idv := idAndVersionOf data
  let pendingWrite : PendingWrite :=
    ⟨hash, data, 0, src, dst, msgId, mutateType, rejected⟩
  let writes := assocGetD c.pendingWrites idv.1 []
  let result :=
    if !rejected && writes.all (·.rejected) then some (⟨idv, hash⟩ : RefreshData)
    else none
  (result, { c with pendingWrites := assocSet c.pendingWrites idv.1 (pendingWrite :: writes) })

/-- `Cache::take_pending_writes` (data_manager.rs lines 347-349). -/
def Cache.takePendingWrites (c : Cache) (dataId : DataIdentifier) :
    List PendingWrite × Cache :=
  (assocGetD c.pendingWrites dataId [],
   { c with pendingWrites := assocRemove c.pendingWrites dataId })

/-- `chunk_store_full` (data_manager.rs lines 1106-1108), as a function of the
used and maximum byte counts: `used > (max / 100) * MAX_FULL_PERCENT` with
integer division. -/
def chunkStoreFull (used maxSpace : Nat) : Bool :=
  decide (maxSpace / 100 * MAX_FULL_PERCENT < used)

/-- Modelled from the spec (§4.1): the external chunk-store crate, a keyed blob
store with capacity accounting; `put` replaces any prior value of the same key
and is modelled as always succeeding. -/
structure ChunkStore where
  entries : List (DataIdentifier × Data)
  maxSpace : Nat
deriving DecidableEq

/-- `ChunkStore::get`. -/
def ChunkStore.get (s : ChunkStore) (dataId : DataIdentifier) : Option Data :=
  assocGet s.entries dataId

/-- `ChunkStore::has`. -/
def ChunkStore.has (s : ChunkStore) (dataId : DataIdentifier) : Bool :=
  (s.get dataId).isSome

/-- `ChunkStore::put`: overwrites the previous value of the same id. -/
def ChunkStore.put (s : ChunkStore) (dataId : DataIdentifier) (d : Data) : ChunkStore :=
  { s with entries := (dataId, d) :: assocRemove s.entries dataId }

/-- `ChunkStore::delete`. -/
def ChunkStore.delete (s : ChunkStore) (dataId : DataIdentifier) : ChunkStore :=
  { s with entries := assocRemove s.entries dataId }

/-- `ChunkStore::keys`. -/
def ChunkStore.keys (s : ChunkStore) : List DataIdentifier :=
  s.entries.map (·.1)

/-- `ChunkStore::used_space`: the bytes consumed by the stored chunks. -/
def ChunkStore.usedSpace (s : ChunkStore) : Nat :=
  (s.entries.map (fun e => e.2.size)).sum

/-- A well-formed store: keys are unique and each entry's datum matches its
key.  Both hold for the real chunk store, which is keyed by
`Data::identifier`. -/
def ChunkStore.wf (s : ChunkStore) : Prop :=
  (s.entries.map (·.1)).Nodup ∧ ∀ e ∈ s.entries, (e : DataIdentifier × Data).2.identifier = e.1

/-- Modelled from the spec (§4.2): the external accumulator crate, a quorum
counter mapping a key to its set of voting peers.  The 180 s TTL reaping is
not modelled; no claim depends on accumulator timeouts. -/
structure Accumulator where
  quorum : Nat
  entries : List (IdAndVersion × List XorName)
deriving DecidableEq

/-- Modelled from the spec (§4.2): record a voter under a key; duplicate votes
are discarded; returns the full voter set once it reaches the quorum. -/
def Accumulator.add (acc : Accumulator) (key : IdAndVersion) (voter : XorName) :
    Option (List XorName) × Accumulator :=
  let cur := assocGetD acc.entries key []
  if cur.contains voter then (none, acc)
  else
    let cur' := cur ++ [voter]
    let acc' := { acc with entries := assocSet acc.entries key cur' }
    (if acc.quorum ≤ cur'.length then some cur' else none, acc')

/-- Modelled from the spec (§4.2): `Accumulator::delete` evicts the entry. -/
def Accumulator.delete (acc : Accumulator) (key : IdAndVersion) : Accumulator :=
  { acc with entries := assocRemove acc.entries key }

/-- The routing node surface used by the data manager (§4.5): the node's own
name and `close_group` at `GROUP_SIZE` (`None` when we are not in the close
group). -/
structure RoutingView where
  name : XorName
  closeGroup : XorName → Option (List XorName)

/-- The routing-table surface used on churn (§4.5): `other_closest_names` at
`GROUP_SIZE`, and `is_closest` at `GROUP_SIZE`. -/
structure RoutingTableView where
  otherClosestNames : XorName → Option (List XorName)
  isClosest : XorName → Bool

/-- `GetError` (routing crate client errors): the only variant the data
manager sends. -/
inductive GetError where
  | NoSuchData
deriving DecidableEq

/-- `MutationError` (routing crate client errors), as used here. -/
inductive MutationError where
  | NoSuchData
  | DataExists
  | DataTooLarge
  | InvalidOperation
  | InvalidSuccessor
  | NetworkFull
  | NetworkOther (s : String)
deriving DecidableEq

/-- The refresh payloads serialised onto the wire: `RefreshDataList`
(data_manager.rs line 1169) and the group-refresh `RefreshData`. -/
inductive RefreshPayload where
  | dataList (l : List IdAndVersion)
  | groupData (rd : RefreshData)
deriving DecidableEq

/-- An outbound message through the routing adapter.  The first authority is
the sending authority (`dst` at the call sites), the second the recipient
(`src` at the call sites), matching the argument order of the `send_*`
calls. -/
inductive Message where
  | GetSuccess (from_ to_ : Authority) (d : Data) (msgId : Nat)
  | GetFailure (from_ to_ : Authority) (dataId : DataIdentifier) (err : GetError) (msgId : Nat)
  | PutSuccess (from_ to_ : Authority) (dataId : DataIdentifier) (msgId : Nat)
  | PutFailure (from_ to_ : Authority) (dataId : DataIdentifier) (err : MutationError) (msgId : Nat)
  | PostSuccess (from_ to_ : Authority) (dataId : DataIdentifier) (msgId : Nat)
  | PostFailure (from_ to_ : Authority) (dataId : DataIdentifier) (err : MutationError) (msgId : Nat)
  | DeleteSuccess (from_ to_ : Authority) (dataId : DataIdentifier) (msgId : Nat)
  | DeleteFailure (from_ to_ : Authority) (dataId : DataIdentifier) (err : MutationError) (msgId : Nat)
  | AppendSuccess (from_ to_ : Authority) (dataId : DataIdentifier) (msgId : Nat)
  | AppendFailure (from_ to_ : Authority) (dataId : DataIdentifier) (err : MutationError) (msgId : Nat)
  | GetRequest (from_ to_ : Authority) (dataId : DataIdentifier) (msgId : Nat)
  | RefreshRequest (from_ to_ : Authority) (payload : RefreshPayload) (msgId : Nat)
deriving DecidableEq

/-- `DataManager` (data_manager.rs lines 353-363); the status-log timestamp is
omitted (it only gates `info!` output). -/
structure DataManager where
  chunkStore : ChunkStore
  refreshAccumulator : Accumulator
  cache : Cache
  immutableDataCount : Nat
  structuredDataCount : Nat
  appendableDataCount : Nat
  clientGetRequests : Nat
deriving DecidableEq

/-- `chunk_store_full` as a method of the engine. -/
def DataManager.chunkStoreFull (dm : DataManager) : Bool :=
  Vault.chunkStoreFull dm.chunkStore.usedSpace dm.chunkStore.maxSpace

/-- The `while` loop of `clean_chunk_store` (data_manager.rs lines 1112-1120):
pop unneeded chunks and delete them while the store is full. -/
def cleanLoop : List DataIdentifier → ChunkStore → ChunkStore × List DataIdentifier
  | [], store => (store, [])
  | dataId :: rest, store =>
    if chunkStoreFull store.usedSpace store.maxSpace then cleanLoop rest (store.delete dataId)
    else (store, dataId :: rest)

/-- `clean_chunk_store` (data_manager.rs lines 1112-1120). -/
def DataManager.cleanChunkStore (dm : DataManager) : DataManager :=
  let r := cleanLoop dm.cache.unneededChunks dm.chunkStore
  { dm with chunkStore := r.1, cache := { dm.cache with unneededChunks := r.2 } }

/-- `count_added_data` (data_manager.rs lines 1087-1094). -/
def DataManager.countAddedData (dm : DataManager) (dataId : DataIdentifier) : DataManager :=
  match dataId with
  | .Immutable _ => { dm with immutableDataCount := dm.immutableDataCount + 1 }
  | .Structured _ _ => { dm with structuredDataCount := dm.structuredDataCount + 1 }
  | .PubAppendable _ => { dm with appendableDataCount := dm.appendableDataCount + 1 }
  | .PrivAppendable _ => { dm with appendableDataCount := dm.appendableDataCount + 1 }

/-- `count_removed_data` (data_manager.rs lines 1096-1103); the `u64`
decrement is modelled as truncated subtraction. -/
def DataManager.countRemovedData (dm : DataManager) (dataId : DataIdentifier) : DataManager :=
  match dataId with
  | .Immutable _ => { dm with immutableDataCount := dm.immutableDataCount - 1 }
  | .Structured _ _ => { dm with structuredDataCount := dm.structuredDataCount - 1 }
  | .PubAppendable _ => { dm with appendableDataCount := dm.appendableDataCount - 1 }
  | .PrivAppendable _ => { dm with appendableDataCount := dm.appendableDataCount - 1 }

/-- `send_failure` (data_manager.rs lines 884-908): the failure message
matching a pending mutation kind. -/
def sendFailureMsg (mutateType : PendingMutationType) (src dst : Authority)
    (dataId : DataIdentifier) (msgId : Nat) (error : MutationError) : Message :=
  match mutateType with
  | .Append => .AppendFailure dst src dataId error msgId
  | .Post => .PostFailure dst src dataId error msgId
  | .Put => .PutFailure dst src dataId error msgId
  | .Delete => .DeleteFailure dst src dataId error msgId

/-- `update_pending_writes` (data_manager.rs lines 910-933): fail and reap the
expired pending writes, insert the new write, and if that returns a
`RefreshData` broadcast a group refresh to `NaeManager(data.name)` with the
original message id. -/
def DataManager.updatePendingWrites (dm : DataManager) (data : Data)
    (mutateType : PendingMutationType) (src dst : Authority) (msgId : Nat)
    (rejected : Bool) : DataManager × List Message :=
  let r := dm.cache.removeExpiredWrites
  let failMsgs := r.1.map (fun w =>
    sendFailureMsg w.mutateType w.src w.dst w.data.identifier w.messageId
      (.NetworkOther ("Request expired.")))
  let dataName := data.name
  let r2 := r.2.insertPendingWrite data mutateType src dst msgId rejected
  match r2.1 with
  | some refreshData =>
    ({ dm with cache := r2.2 },
     failMsgs ++ [.RefreshRequest (.NaeManager dataName) (.NaeManager dataName)
       (.groupData refreshData) msgId])
  | none => ({ dm with cache := r2.2 }, failMsgs)

/-- `Cache::needed_data` (data_manager.rs lines 226-267): reap empty holder
entries and expired ongoing Gets, then for each idle holder pick one
id-and-version whose id is not already being fetched, removing it from the
holder's set.  Hash-map iteration order is modelled by list order. -/
def Cache.neededData (c : Cache) : Cache × List (XorName × IdAndVersion) :=
  let holders1 := c.dataHolders.filter (fun e => !e.2.isEmpty)
  let gets1 := c.ongoingGets.filter
    (fun e => !(decide (GET_FROM_DATA_HOLDER_TIMEOUT_SECS < e.2.1)))
  let outstanding := gets1.map (fun e => e.2.2.1)
  let idleHolders := (holders1.map (·.1)).filter
    (fun h => !(gets1.map (·.1)).contains h)
  let final := idleHolders.foldl
    (fun (acc : (List (XorName × List IdAndVersion)) × List DataIdentifier ×
        List (XorName × IdAndVersion)) idleHolder =>
      let dataIdvs := assocGetD acc.1 idleHolder []
      match dataIdvs.find? (fun idv => !acc.2.1.contains idv.1) with
      | some dataIdv =>
        (assocSet acc.1 idleHolder (dataIdvs.filter (fun x => !(x == dataIdv))),
         acc.2.1 ++ [dataIdv.1], acc.2.2 ++ [(idleHolder, dataIdv)])
      | none => acc)
    (holders1, outstanding, [])
  ({ c with dataHolders := final.1, ongoingGets := gets1 }, final.2.2)

/-- One candidate's handling in the loop of `send_gets_for_needed_data`
(data_manager.rs lines 938-948): if the idle holder is in the close group of
the data's name, record an ongoing Get and send a Get request. -/
def sendGetsStep (rt : RoutingView) (src : Authority) (acc : Cache × List Message)
    (cand : XorName × IdAndVersion) : Cache × List Message :=
  match rt.closeGroup cand.2.1.name with
  | some group =>
    if group.contains cand.1 then
      (acc.1.insertIntoOngoingGets cand.1 cand.2,
       acc.2 ++ [.GetRequest src (.ManagedNode cand.1) cand.2.1 0])
    else acc
  | none => acc

/-- `send_gets_for_needed_data` (data_manager.rs lines 935-951): issue a Get
for every candidate whose holder is in the close group of the data's name.
The fresh `MessageId::new()` is modelled as 0. -/
def sendGetsForNeededData (dm : DataManager) (rt : RoutingView) :
    DataManager × List Message :=
  let src := Authority.ManagedNode rt.name
  let r := dm.cache.neededData
  let final := r.2.foldl (sendGetsStep rt src) (r.1, [])
  ({ dm with cache := final.1 }, final.2)

/-- `handle_get` (data_manager.rs lines 406-431); the periodic status log is
omitted, the client-request counter kept. -/
def DataManager.handleGet (dm : DataManager) (src dst : Authority)
    (dataId : DataIdentifier) (msgId : Nat) : DataManager × List Message :=
  let dm1 :=
    match src with
    | .Client _ => { dm with clientGetRequests := dm.clientGetRequests + 1 }
    | _ => dm
  match dm1.chunkStore.get dataId with
  | some data => (dm1, [.GetSuccess dst src data msgId])
  | none => (dm1, [.GetFailure dst src dataId .NoSuchData msgId])

/-- The tail of `handle_put` after the already-exists check (data_manager.rs
lines 470-492): clean the chunk store, report `DataExists` / `NetworkFull`,
return early when full, otherwise funnel into the pending-write pipeline with
`rejected = !valid`. -/
def DataManager.putRest (dm : DataManager) (src dst : Authority) (data : Data)
    (msgId : Nat) (valid : Bool) : DataManager × List Message :=
  let dataId := data.identifier
  let dm1 := dm.cleanChunkStore
  let isFull := dm1.chunkStoreFull
  let errorOpt : Option MutationError :=
    if !valid then some .DataExists
    else if isFull then some .NetworkFull
    else none
  match errorOpt with
  | some error =>
    if isFull then (dm1, [.PutFailure dst src dataId error msgId])
    else
      let r := dm1.updatePendingWrites data .Put src dst msgId (!valid)
      (r.1, .PutFailure dst src dataId error msgId :: r.2)
  | none =>
    dm1.updatePendingWrites data .Put src dst msgId false

/-- `handle_put` (data_manager.rs lines 433-492).  For already-present
immutable data it replies `PutSuccess` immediately; for already-present
mutable data the put is valid only if the stored structured chunk is deleted
and the new version is its successor. -/
def DataManager.handlePut (dm : DataManager) (src dst : Authority) (data : Data)
    (msgId : Nat) : DataManager × List Message :=
  let dataId := data.identifier
  if dm.chunkStore.has dataId then
    match dataId with
    | .Immutable _ => (dm, [.PutSuccess dst src dataId msgId])
    | _ =>
      let valid :=
        match dm.chunkStore.get dataId, data with
        | some (.Structured oldData), .Structured newData =>
          oldData.deleted && (oldData.version + 1 == newData.version)
        | _, _ => false
      dm.putRest src dst data msgId valid
  else dm.putRest src dst data msgId true

/-- Modelled from the spec (§4.4.3): `StructuredData::replace_with_other` of
the routing crate must succeed or the Post is an invalid successor; success is
abstracted as a version increment. -/
def StructuredData.replaceWithOther (sd newSd : StructuredData) : Option StructuredData :=
  if newSd.version = sd.version + 1 then some newSd else none

/-- Modelled from the spec (§4.4.3): `AppendableData::update_with_other` of
the routing crate must succeed or the Post is an invalid successor; success is
abstracted as a version increment with the update replacing the content. -/
def AppendableData.updateWithOther (ad newAd : AppendableData) : Option AppendableData :=
  if newAd.version = ad.version + 1 then some newAd else none

/-- The tail of `handle_post` once `update_result` is `Ok(data)`
(data_manager.rs lines 563-574): report the recorded error, if any, and funnel
into the pending-write pipeline with `rejected = error_opt.is_some()`. -/
def DataManager.postFinish (dm : DataManager) (src dst : Authority)
    (dataId : DataIdentifier) (data : Data) (msgId : Nat)
    (errorOpt : Option MutationError) : DataManager × List Message :=
  let errMsgs :=
    match errorOpt with
    | some error => [Message.PostFailure dst src dataId error msgId]
    | none => []
  let r := dm.updatePendingWrites data .Post src dst msgId errorOpt.isSome
  (r.1, errMsgs ++ r.2)

/-- `handle_post` (data_manager.rs lines 495-574). -/
def DataManager.handlePost (dm : DataManager) (src dst : Authority)
    (newData : Data) (msgId : Nat) : DataManager × List Message :=
  let dataId := newData.identifier
  if !newData.validateSize then
    (dm, [.PostFailure dst src dataId .DataTooLarge msgId])
  else
    match newData, dm.chunkStore.get dataId with
    | .Structured newSd, none =>
      dm.postFinish src dst dataId (.Structured newSd) msgId (some .NoSuchData)
    | _, none => (dm, [.PostFailure dst src dataId .NoSuchData msgId])
    | .Structured newSd, some (.Structured sd) =>
      let errorOpt :=
        if sd.deleted then some MutationError.InvalidOperation
        else if (sd.replaceWithOther newSd).isNone then some .InvalidSuccessor
        else none
      dm.postFinish src dst dataId (.Structured newSd) msgId errorOpt
    | .PubAppendable newAd, some (.PubAppendable ad) =>
      match ad.updateWithOther newAd with
      | some ad' => dm.postFinish src dst dataId (.PubAppendable ad') msgId none
      | none => (dm, [.PostFailure dst src dataId .InvalidSuccessor msgId])
    | .PrivAppendable newAd, some (.PrivAppendable ad) =>
      match ad.updateWithOther newAd with
      | some ad' => dm.postFinish src dst dataId (.PrivAppendable ad') msgId none
      | none => (dm, [.PostFailure dst src dataId .InvalidSuccessor msgId])
    | _, some _ => (dm, [.PostFailure dst src dataId .InvalidOperation msgId])

/-- Modelled from the spec (§4.4.4, scenario 3): the routing crate's
`delete_if_valid_successor` turns the chunk into a tombstone (bumped version,
cleared payload) iff the request's version is the stored version's
successor. -/
def StructuredData.deleteIfValidSuccessor (sd newSd : StructuredData) : Option StructuredData :=
  if newSd.version = sd.version + 1 then
    some { sd with version := newSd.version, deleted := true, payload := [] }
  else none

/-- `handle_delete` (data_manager.rs lines 577-613): structured only; valid
tombstoning enters a non-rejected pending write, conflicts enter a rejected
one; the failure message follows the pipeline messages. -/
def DataManager.handleDelete (dm : DataManager) (src dst : Authority)
    (newData : StructuredData) (msgId : Nat) : DataManager × List Message :=
  let dataId := DataIdentifier.Structured newData.name newData.tag
  match dm.chunkStore.get dataId with
  | some (.Structured sd) =>
    let deleted := sd.deleteIfValidSuccessor newData
    let errorOpt : Option MutationError :=
      if sd.deleted then some .InvalidOperation
      else if deleted.isSome then none
      else some .InvalidSuccessor
    let sd' := if sd.deleted then sd else deleted.getD sd
    let r := dm.updatePendingWrites (.Structured sd') .Delete src dst msgId errorOpt.isSome
    match errorOpt with
    | some error => (r.1, r.2 ++ [.DeleteFailure dst src dataId error msgId])
    | none => (r.1, r.2)
  | some _ => (dm, [.DeleteFailure dst src dataId .InvalidOperation msgId])
  | none => (dm, [.DeleteFailure dst src dataId .NoSuchData msgId])

/-- `AppendWrapper` of the routing crate: a signed request to append one item
to a public or private appendable chunk. -/
inductive AppendWrapper where
  | Pub (name : XorName) (item : Nat) (wrapperVersion : Nat)
  | Priv (name : XorName) (item : Nat) (wrapperVersion : Nat)
deriving DecidableEq

/-- `AppendWrapper::identifier`. -/
def AppendWrapper.identifier : AppendWrapper → DataIdentifier
  | .Pub n _ _ => .PubAppendable n
  | .Priv n _ _ => .PrivAppendable n

/-- Modelled from the spec (§4.4.5): the routing crate's `apply_wrapper`
appends the item when the wrapper targets the chunk's current version. -/
def AppendableData.applyWrapper (ad : AppendableData) (item wrapperVersion : Nat) :
    Option AppendableData :=
  if wrapperVersion = ad.version then some { ad with data := insert item ad.data }
  else none

/-- The tail of `handle_append` when `apply_wrapper` succeeded
(data_manager.rs lines 655-670): size-guard the result, then enter a
non-rejected pending write of kind Append. -/
def DataManager.appendRest (dm : DataManager) (src dst : Authority)
    (dataId : DataIdentifier) (data : Data) (msgId : Nat) : DataManager × List Message :=
  if !data.validateSize then
    (dm, [.AppendFailure dst src dataId .DataTooLarge msgId])
  else dm.updatePendingWrites data .Append src dst msgId false

/-- `handle_append` (data_manager.rs lines 616-679).  The `unreachable!` arm
for a variant mismatch between wrapper and stored chunk (impossible for a
well-formed store) is modelled as a silent no-op. -/
def DataManager.handleAppend (dm : DataManager) (src dst : Authority)
    (wrapper : AppendWrapper) (msgId : Nat) : DataManager × List Message :=
  let dataId := wrapper.identifier
  match wrapper, dm.chunkStore.get dataId with
  | .Pub _ item wv, some (.PubAppendable ad) =>
    match ad.applyWrapper item wv with
    | some ad' => dm.appendRest src dst dataId (.PubAppendable ad') msgId
    | none => (dm, [.AppendFailure dst src dataId .InvalidSuccessor msgId])
  | .Priv _ item wv, some (.PrivAppendable ad) =>
    match ad.applyWrapper item wv with
    | some ad' => dm.appendRest src dst dataId (.PrivAppendable ad') msgId
    | none => (dm, [.AppendFailure dst src dataId .InvalidSuccessor msgId])
  | _, some _ => (dm, [])
  | _, none => (dm, [.AppendFailure dst src dataId .NoSuchData msgId])

/-- `handle_get_success` (data_manager.rs lines 681-755): clear the matching
outstanding Get and reschedule fetches; drop the result when no longer close;
otherwise store per kind, merging appendable chunks of equal version by
set-union of their items.  The Rust `if let Ok(Data::X(..))` guards fall
through (and store the received datum as new) when the lookup fails. -/
def DataManager.handleGetSuccess (dm : DataManager) (rt : RoutingView)
    (src : XorName) (data : Data) : DataManager × List Message :=
  let idv := idAndVersionOf data
  let cache1 := dm.cache.handleGetSuccess src idv.1 idv.2
  let r := sendGetsForNeededData { dm with cache := cache1 } rt
  let dm1 := r.1
  if (rt.closeGroup idv.1.name).isNone then (dm1, r.2)
  else
    let step : Option (Data × Bool) :=
      match data with
      | .PubAppendable received =>
        match dm1.chunkStore.get idv.1 with
        | some (.PubAppendable appendableData) =>
          if received.version < appendableData.version then none
          else if appendableData.version = received.version then
            some (.PubAppendable
              { received with data := received.data ∪ appendableData.data }, false)
          else some (.PubAppendable received, false)
        | _ => some (.PubAppendable received, true)
      | .PrivAppendable received =>
        match dm1.chunkStore.get idv.1 with
        | some (.PrivAppendable appendableData) =>
          if received.version < appendableData.version then none
          else if appendableData.version = received.version then
            some (.PrivAppendable
              { received with data := received.data ∪ appendableData.data }, false)
          else some (.PrivAppendable received, false)
        | _ => some (.PrivAppendable received, true)
      | .Structured _ =>
        match dm1.chunkStore.get idv.1 with
        | some (.Structured structuredData) =>
          if idv.2 ≤ structuredData.version then none
          else some (data, false)
        | _ => some (data, true)
      | .Immutable _ =>
        if dm1.chunkStore.has idv.1 then none else some (data, true)
    match step with
    | none => (dm1, r.2)
    | some (toStore, gotNewData) =>
      let dm2 := dm1.cleanChunkStore
      let dm3 := { dm2 with chunkStore := dm2.chunkStore.put idv.1 toStore }
      (if gotNewData then dm3.countAddedData idv.1 else dm3, r.2)

/-- `handle_get_failure` (data_manager.rs lines 757-767): an unexpected
failure is a protocol error (no reschedule); a matching one reschedules. -/
def DataManager.handleGetFailure (dm : DataManager) (rt : RoutingView)
    (src : XorName) (dataId : DataIdentifier) : DataManager × List Message :=
  let r := dm.cache.handleGetFailure src dataId
  let dm1 := { dm with cache := r.2 }
  if r.1 then sendGetsForNeededData dm1 rt else (dm1, [])

/-- The `data_needed` decision of `handle_refresh` (data_manager.rs lines
782-808).  The `unreachable!` arms for a stored chunk of mismatched variant
(impossible for a well-formed store) are modelled as `false`. -/
def dataNeeded (store : ChunkStore) (dataId : DataIdentifier) (version : Nat) : Bool :=
  match dataId with
  | .Immutable _ => !store.has dataId
  | .Structured _ _ =>
    match store.get dataId with
    | none => true
    | some (.Structured sd) => decide (sd.version < version)
    | some _ => false
  | .PubAppendable _ =>
    match store.get dataId with
    | none => true
    | some (.PubAppendable ad) => decide (ad.version ≤ version)
    | some _ => false
  | .PrivAppendable _ =>
    match store.get dataId with
    | none => true
    | some (.PrivAppendable ad) => decide (ad.version ≤ version)
    | some _ => false

/-- The body of the `handle_refresh` loop for one claimed id-and-version
(data_manager.rs lines 775-814): an already-held claim just registers the
sender; otherwise the claim is voted into the accumulator, and on quorum the
voters become holders iff the data is needed. -/
def DataManager.handleRefreshOne (dm : DataManager) (src : XorName)
    (dataIdv : IdAndVersion) : DataManager :=
  let reg := dm.cache.registerDataWithHolder src dataIdv
  if reg.1 then { dm with cache := reg.2 }
  else
    let r := dm.refreshAccumulator.add dataIdv src
    match r.1 with
    | some holders =>
      let acc2 := r.2.delete dataIdv
      if dataNeeded dm.chunkStore dataIdv.1 dataIdv.2 then
        { dm with refreshAccumulator := acc2,
                  cache := dm.cache.addRecords dataIdv holders }
      else { dm with refreshAccumulator := acc2 }
    | none => { dm with refreshAccumulator := r.2 }

/-- `handle_refresh` (data_manager.rs lines 769-816), over an already
deserialised `RefreshDataList`. -/
def DataManager.handleRefresh (dm : DataManager) (rt : RoutingView)
    (src : XorName) (dataList : List IdAndVersion) : DataManager × List Message :=
  sendGetsForNeededData (dataList.foldl (fun dm idv => dm.handleRefreshOne src idv) dm) rt

/-- One pending write's processing inside `handle_group_refresh`
(data_manager.rs lines 823-871), threading the engine state through the list:
a hash-matching write commits (store, success reply, counter update for new
puts, group-refresh broadcast of the id-and-version) and sets the success
flag; a differing non-rejected write is failed as a concurrent modification;
a differing rejected write is dropped silently.  `chunk_store.put` is total in
this model, so the store-failure reply never triggers; the broadcast's fresh
`MessageId::new()` is modelled as 0. -/
def processWrites (rt : RoutingView) (dataId : DataIdentifier) (version : Nat)
    (refreshHash : Nat) : DataManager → List PendingWrite → DataManager × List Message × Bool
  | dm, [] => (dm, [], false)
  | dm, w :: rest =>
    if w.hash = refreshHash then
      let alreadyExisted := dm.chunkStore.has dataId
      let dm1 := { dm with chunkStore := dm.chunkStore.put dataId w.data }
      let dm2 :=
        match w.mutateType with
        | .Put => if alreadyExisted then dm1 else dm1.countAddedData dataId
        | _ => dm1
      let successMsg :=
        match w.mutateType with
        | .Append => Message.AppendSuccess w.dst w.src dataId w.messageId
        | .Post => Message.PostSuccess w.dst w.src dataId w.messageId
        | .Put => Message.PutSuccess w.dst w.src dataId w.messageId
        | .Delete => Message.DeleteSuccess w.dst w.src dataId w.messageId
      let refreshMsg := Message.RefreshRequest (.ManagedNode rt.name)
        (.NaeManager dataId.name) (.dataList [(dataId, version)]) 0
      let r := processWrites rt dataId version refreshHash dm2 rest
      (r.1, successMsg :: refreshMsg :: r.2.1, true)
    else if !w.rejected then
      let failMsg := sendFailureMsg w.mutateType w.src w.dst w.data.identifier
        w.messageId (.NetworkOther ("Concurrent modification."))
      let r := processWrites rt dataId version refreshHash dm rest
      (r.1, failMsg :: r.2.1, r.2.2)
    else processWrites rt dataId version refreshHash dm rest

/-- The seeding loop of `handle_group_refresh` (data_manager.rs lines
873-877): conditionally register every close-group member as a holder. -/
def seedGroup (c : Cache) (group : List XorName) (dataIdv : IdAndVersion) : Cache :=
  group.foldl (fun c node => (c.registerDataWithHolder node dataIdv).2) c

/-- `handle_group_refresh` (data_manager.rs lines 819-882). -/
def DataManager.handleGroupRefresh (dm : DataManager) (rt : RoutingView)
    (refresh : RefreshData) : DataManager × List Message :=
  let dataId := refresh.idv.1
  let version := refresh.idv.2
  let taken := dm.cache.takePendingWrites dataId
  let r := processWrites rt dataId version refresh.hash { dm with cache := taken.2 } taken.1
  if r.2.2 then (r.1, r.2.1)
  else
    match rt.closeGroup dataId.name with
    | some group =>
      let cache2 := seedGroup r.1.cache group (dataId, version)
      let r2 := sendGetsForNeededData { r.1 with cache := cache2 } rt
      (r2.1, r.2.1 ++ r2.2)
    | none => (r.1, r.2.1)

/-- `Cache::prune_data_holders` (data_manager.rs lines 182-204): drop holder
entries whose data left our close group or whose peer left the data's group;
reap emptied peers. -/
def Cache.pruneDataHolders (c : Cache) (table : RoutingTableView) : Cache :=
  let holders1 := c.dataHolders.map (fun e =>
    (e.1, e.2.filter (fun idv =>
      match table.otherClosestNames idv.1.name with
      | none => false
      | some group => group.contains e.1)))
  { c with dataHolders := holders1.filter (fun e => !e.2.isEmpty) }

/-- `Cache::prune_ongoing_gets` (data_manager.rs lines 208-224): drop
outstanding Gets whose data or peer left the close group; true iff any were
dropped. -/
def Cache.pruneOngoingGets (c : Cache) (table : RoutingTableView) : Bool × Cache :=
  let lostGets := (c.ongoingGets.filter (fun e =>
    match table.otherClosestNames e.2.2.1.name with
    | none => true
    | some group => !group.contains e.1)).map (·.1)
  if lostGets.isEmpty then (false, c)
  else
    let kept := c.ongoingGets.filter (fun e => !lostGets.contains e.1)
    (true, { c with ongoingGets := kept })

/-- `Cache::prune_unneeded_chunks` (data_manager.rs lines 165-175): reclaim
unneeded chunks whose id has reverted into our close group, returning how many
(a hash-set count, hence deduplicated). -/
def Cache.pruneUnneededChunks (c : Cache) (table : RoutingTableView) : Nat × Cache :=
  let pruned := (c.unneededChunks.filter (fun dataId => table.isClosest dataId.name)).dedup
  if pruned.isEmpty then (pruned.length, c)
  else
    let kept := c.unneededChunks.filter (fun dataId => !pruned.contains dataId)
    (pruned.length, { c with unneededChunks := kept })

/-- `to_id_and_version` (data_manager.rs lines 1068-1085). -/
def DataManager.toIdAndVersion (dm : DataManager) (dataId : DataIdentifier) :
    Option IdAndVersion :=
  match dataId with
  | .Immutable _ => some (dataId, 0)
  | _ =>
    match dm.chunkStore.get dataId with
    | some (.Structured sd) => some (dataId, sd.version)
    | some (.PubAppendable ad) => some (dataId, ad.version)
    | some (.PrivAppendable ad) => some (dataId, ad.version)
    | _ => none

/-- The body of the churn loop in `handle_node_added` (data_manager.rs lines
972-992) for one id-and-version: ids we are no longer responsible for are
uncounted and (if immutable) queued as unneeded or (otherwise) deleted; ids
whose group gained the new node are collected for a refresh. -/
def nodeAddedStep (table : RoutingTableView) (nodeName : XorName)
    (acc : DataManager × List IdAndVersion) (dataIdv : IdAndVersion) :
    DataManager × List IdAndVersion :=
  match table.otherClosestNames dataIdv.1.name with
  | none =>
    if acc.1.chunkStore.has dataIdv.1 && !acc.1.cache.isInUnneeded dataIdv.1 then
      let dmB := acc.1.countRemovedData dataIdv.1
      match dataIdv.1 with
      | .Immutable _ => ({ dmB with cache := dmB.cache.addAsUnneeded dataIdv.1 }, acc.2)
      | _ => ({ dmB with chunkStore := dmB.chunkStore.delete dataIdv.1 }, acc.2)
    else acc
  | some closeGroup =>
    if closeGroup.contains nodeName then (acc.1, acc.2 ++ [dataIdv]) else acc

/-- `handle_node_added` (data_manager.rs lines 957-1000). -/
def DataManager.handleNodeAdded (dm : DataManager) (rt : RoutingView)
    (nodeName : XorName) (table : RoutingTableView) : DataManager × List Message :=
  let cache1 := dm.cache.pruneDataHolders table
  let pruneR := cache1.pruneOngoingGets table
  let r :=
    if pruneR.1 then sendGetsForNeededData { dm with cache := pruneR.2 } rt
    else ({ dm with cache := pruneR.2 }, [])
  let dm1 := r.1
  let dataIdvs := dm1.cache.chainRecordsInCache
    (dm1.chunkStore.keys.filterMap (fun dataId => dm1.toIdAndVersion dataId))
  let final := dataIdvs.foldl (nodeAddedStep table nodeName) (dm1, [])
  if final.2.isEmpty then (final.1, r.2)
  else (final.1, r.2 ++ [.RefreshRequest (.ManagedNode rt.name)
    (.ManagedNode nodeName) (.dataList final.2) 0])

/-- `XorName::closer` of the routing crate: whether `a` is XOR-closer to
`target` than `b` is. -/
def xorCloser (target a b : XorName) : Bool :=
  decide (target ^^^ a < target ^^^ b)

/-- `handle_node_lost` (data_manager.rs lines 1004-1050). -/
def DataManager.handleNodeLost (dm : DataManager) (rt : RoutingView)
    (nodeName : XorName) (table : RoutingTableView) : DataManager × List Message :=
  let pruneU := dm.cache.pruneUnneededChunks table
  let dm1 := { dm with cache := pruneU.2, immutableDataCount := dm.immutableDataCount + pruneU.1 }
  let cache2 := dm1.cache.pruneDataHolders table
  let pruneR := cache2.pruneOngoingGets table
  let r :=
    if pruneR.1 then sendGetsForNeededData { dm1 with cache := pruneR.2 } rt
    else ({ dm1 with cache := pruneR.2 }, [])
  let dm2 := r.1
  let dataIdvs := dm2.cache.chainRecordsInCache
    (dm2.chunkStore.keys.filterMap (fun dataId => dm2.toIdAndVersion dataId))
  let dataLists := dataIdvs.foldl
    (fun (lists : List (XorName × List IdAndVersion)) dataIdv =>
      match table.otherClosestNames dataIdv.1.name with
      | none => lists
      | some closeGroup =>
        match closeGroup.get? (GROUP_SIZE - 2) with
        | some outerNode =>
          if xorCloser dataIdv.1.name nodeName outerNode then
            assocSet lists outerNode (assocGetD lists outerNode [] ++ [dataIdv])
          else lists
        | none => lists) []
  (dm2, r.2 ++ dataLists.map (fun e =>
    Message.RefreshRequest (.ManagedNode rt.name) (.ManagedNode e.1) (.dataList e.2) 0))

/-- `check_timeouts` (data_manager.rs lines 1052-1054). -/
def DataManager.checkTimeouts (dm : DataManager) (rt : RoutingView) :
    DataManager × List Message :=
  sendGetsForNeededData dm rt

/-- A freshly constructed engine (`DataManager::new`, data_manager.rs lines
389-404) with an empty chunk-store directory of the given capacity. -/
def newDataManager (capacity : Nat) : DataManager :=
  ⟨⟨[], capacity⟩, ⟨ACCUMULATOR_QUORUM, []⟩, Cache.default, 0, 0, 0, 0⟩

/-- One invocation of any public entry point of the data manager: the step
relation over engine states. -/
inductive Step : DataManager → DataManager → Prop where
  | get (dm : DataManager) (src dst : Authority) (dataId : DataIdentifier) (msgId : Nat) :
      Step dm (dm.handleGet src dst dataId msgId).1
  | put (dm : DataManager) (src dst : Authority) (data : Data) (msgId : Nat) :
      Step dm (dm.handlePut src dst data msgId).1
  | post (dm : DataManager) (src dst : Authority) (newData : Data) (msgId : Nat) :
      Step dm (dm.handlePost src dst newData msgId).1
  | delete (dm : DataManager) (src dst : Authority) (newData : StructuredData) (msgId : Nat) :
      Step dm (dm.handleDelete src dst newData msgId).1
  | append (dm : DataManager) (src dst : Authority) (wrapper : AppendWrapper) (msgId : Nat) :
      Step dm (dm.handleAppend src dst wrapper msgId).1
  | getSuccess (dm : DataManager) (rt : RoutingView) (src : XorName) (data : Data) :
      Step dm (dm.handleGetSuccess rt src data).1
  | getFailure (dm : DataManager) (rt : RoutingView) (src : XorName) (dataId : DataIdentifier) :
      Step dm (dm.handleGetFailure rt src dataId).1
  | refresh (dm : DataManager) (rt : RoutingView) (src : XorName) (dataList : List IdAndVersion) :
      Step dm (dm.handleRefresh rt src dataList).1
  | groupRefresh (dm : DataManager) (rt : RoutingView) (refresh : RefreshData) :
      Step dm (dm.handleGroupRefresh rt refresh).1
  | nodeAdded (dm : DataManager) (rt : RoutingView) (nodeName : XorName) (table : RoutingTableView) :
      Step dm (dm.handleNodeAdded rt nodeName table).1
  | nodeLost (dm : DataManager) (rt : RoutingView) (nodeName : XorName) (table : RoutingTableView) :
      Step dm (dm.handleNodeLost rt nodeName table).1
  | timeouts (dm : DataManager) (rt : RoutingView) :
      Step dm (dm.checkTimeouts rt).1

/-- The invariant of claim C10: every identifier queued as unneeded is an
immutable identifier. -/
def UnneededAllImmutable (dm : DataManager) : Prop :=
  ∀ dataId ∈ dm.cache.unneededChunks, ∃ n, dataId = DataIdentifier.Immutable n

/-! ### Supporting lemmas -/

theorem splitExpired_of_sorted (ws : List PendingWrite)
    (h : ws.Pairwise (fun a b => a.age ≤ b.age)) :
    splitExpired ws =
      (ws.filter (fun w => decide (w.age ≤ PENDING_WRITE_TIMEOUT_SECS)),
       ws.filter (fun w => decide (PENDING_WRITE_TIMEOUT_SECS < w.age))) := by
  induction ws with
  | nil => rfl
  | cons w rest ih =>
    rcases List.pairwise_cons.mp h with ⟨hw, hrest⟩
    have ihr := ih hrest
    by_cases hexp : PENDING_WRITE_TIMEOUT_SECS < w.age
    · have hall : ∀ x ∈ rest, PENDING_WRITE_TIMEOUT_SECS < x.age :=
        fun x hx => lt_of_lt_of_le hexp (hw x hx)
      have hkeep : rest.filter (fun w => decide (w.age ≤ PENDING_WRITE_TIMEOUT_SECS)) = [] := by
        rw [List.filter_eq_nil_iff]
        intro x hx
        simpa using Nat.not_le.mpr (hall x hx)
      have hdrop : rest.filter (fun w => decide (PENDING_WRITE_TIMEOUT_SECS < w.age)) = rest := by
        rw [List.filter_eq_self]
        intro x hx
        simpa using hall x hx
      simp [splitExpired, List.takeWhile_cons, List.dropWhile_cons, List.filter_cons,
        hexp, Nat.not_le.mpr hexp, hkeep, hdrop]
    · have hle : w.age ≤ PENDING_WRITE_TIMEOUT_SECS := Nat.not_lt.mp hexp
      have h1 := congrArg Prod.fst ihr
      have h2 := congrArg Prod.snd ihr
      simp only [splitExpired] at h1 h2
      simp [splitExpired, List.takeWhile_cons, List.dropWhile_cons, List.filter_cons,
        hexp, hle, h1, h2]

/-! ### Claim C4 -/

/-- C4, counterexample: the claim reads the "full" threshold as
`used > max × 50 / 100`, but with `max = 102` and `used = 51` the code deems
the store full (`51 > (102 / 100) * 50 = 50`) although `51` does not exceed
`102 × 50 / 100 = 51`. -/
theorem c4_counterexample :
    chunkStoreFull 51 102 = true ∧ ¬ (102 * 50 / 100 < 51) := by decide

/-- C4 (amended): `chunk_store_full` holds iff used bytes exceed
`(max / 100) × 50` with integer division applied first; this coincides with
`used > max × 50 / 100` (and with "exceeds exactly half of capacity") exactly
when `100` divides `max`. -/
theorem c4_chunk_store_full (u m : Nat) :
    (chunkStoreFull u m = true ↔ m / 100 * 50 < u) ∧
    (100 ∣ m → (chunkStoreFull u m = true ↔ m * 50 / 100 < u)) := by
  constructor
  · simp [chunkStoreFull, MAX_FULL_PERCENT]
  · rintro ⟨k, rfl⟩
    have h1 : 100 * k / 100 = k := Nat.mul_div_cancel_left k (by norm_num)
    have h2 : 100 * k * 50 / 100 = k * 50 := by
      rw [Nat.mul_assoc]
      exact Nat.mul_div_cancel_left _ (by norm_num)
    simp [chunkStoreFull, MAX_FULL_PERCENT, h1, h2]

/-- C4 witness: the amended theorem applied at `used = 60`, `max = 200`. -/
theorem c4_chunk_store_full_witness :
    chunkStoreFull 60 200 = true ↔ 200 * 50 / 100 < 60 :=
  (c4_chunk_store_full 60 200).2 (by norm_num)

/-! ### Claim C2 -/

/-- C2: `insert_pending_write` returns `Some(RefreshData((data_id, version),
hash))` iff the new write is not rejected and every pending write already
stored under `data.id()` is rejected (in particular when that list is empty);
in both cases the new write is prepended to the list for `data.id()` and all
other identifiers' lists are untouched. -/
theorem c2_insert_pending_write (c : Cache) (d : Data) (mt : PendingMutationType)
    (src dst : Authority) (msgId : Nat) (rejected : Bool) :
    ((c.insertPendingWrite d mt src dst msgId rejected).1 =
        some ⟨idAndVersionOf d, sipHashOf d mt⟩ ↔
      rejected = false ∧
        ∀ w ∈ assocGetD c.pendingWrites (idAndVersionOf d).1 [], w.rejected = true) ∧
    assocGetD (c.insertPendingWrite d mt src dst msgId rejected).2.pendingWrites
        (idAndVersionOf d).1 [] =
      (⟨sipHashOf d mt, d, 0, src, dst, msgId, mt, rejected⟩ : PendingWrite) ::
        assocGetD c.pendingWrites (idAndVersionOf d).1 [] ∧
    ∀ dataId, dataId ≠ (idAndVersionOf d).1 →
      assocGet (c.insertPendingWrite d mt src dst msgId rejected).2.pendingWrites dataId =
        assocGet c.pendingWrites dataId := by
  refine ⟨?_, ?_, ?_⟩
  · simp only [Cache.insertPendingWrite]
    cases rejected with
    | true => simp
    | false =>
      by_cases h : (assocGetD c.pendingWrites (idAndVersionOf d).1 []).all (·.rejected)
      · simp only [h, Bool.not_false, Bool.true_and, if_true]
        rw [List.all_eq_true] at h
        simpa using h
      · have hnall : ¬ ∀ w ∈ assocGetD c.pendingWrites (idAndVersionOf d).1 [],
            w.rejected = true := by
          intro hc
          exact h (List.all_eq_true.mpr (by simpa using hc))
        simp [h, hnall]
  · simp only [Cache.insertPendingWrite]
    exact assocGetD_set_self ..
  · intro dataId hne
    simp only [Cache.insertPendingWrite]
    exact assocGet_set_ne _ _ _ _ hne

/-! ### Claim C3 -/

/-- C3: under the newest-first ordering that `insert_pending_write`'s prepend
maintains (ages non-decreasing along each list), `remove_expired_writes`
removes and returns exactly the pending writes older than 60 seconds, keeps
every younger write in place, and drops every key whose list became empty. -/
theorem c3_remove_expired_writes (c : Cache)
    (h : ∀ e ∈ c.pendingWrites,
      (e : DataIdentifier × List PendingWrite).2.Pairwise (fun a b => a.age ≤ b.age)) :
    c.removeExpiredWrites.1 =
      c.pendingWrites.flatMap (fun e => e.2.filter (fun w => decide (60 < w.age))) ∧
    c.removeExpiredWrites.2.pendingWrites =
      (c.pendingWrites.map (fun e =>
        (e.1, e.2.filter (fun w => decide (w.age ≤ 60))))).filter
        (fun e => !e.2.isEmpty) := by
  have hflat : ∀ l : List (DataIdentifier × List PendingWrite),
      (∀ e ∈ l, List.Pairwise (fun (a b : PendingWrite) => a.age ≤ b.age) e.2) →
      l.flatMap (fun e => (splitExpired e.2).2) =
        l.flatMap (fun e => e.2.filter (fun w => decide (60 < w.age))) := by
    intro l hl
    induction l with
    | nil => rfl
    | cons e rest ih =>
      simp only [List.flatMap_cons]
      rw [congrArg Prod.snd (splitExpired_of_sorted e.2 (hl e (by simp)))]
      rw [ih (fun x hx => hl x (by simp [hx]))]
      rfl
  have hmap : ∀ l : List (DataIdentifier × List PendingWrite),
      (∀ e ∈ l, List.Pairwise (fun (a b : PendingWrite) => a.age ≤ b.age) e.2) →
      l.map (fun e => (e.1, (splitExpired e.2).1)) =
        l.map (fun e => (e.1, e.2.filter (fun w => decide (w.age ≤ 60)))) := by
    intro l hl
    induction l with
    | nil => rfl
    | cons e rest ih =>
      simp only [List.map_cons]
      rw [congrArg Prod.fst (splitExpired_of_sorted e.2 (hl e (by simp)))]
      rw [ih (fun x hx => hl x (by simp [hx]))]
      rfl
  exact ⟨hflat c.pendingWrites h, by
    show ((c.pendingWrites.map fun e => (e.1, (splitExpired e.2).1)).filter
      fun e => !e.2.isEmpty) = _
    rw [hmap c.pendingWrites h]⟩

/-- A concrete pending write aged `a` seconds, used in witnesses. -/
def pwAt (a : Nat) : PendingWrite :=
  ⟨0, .Immutable 0, a, .Client 0, .NaeManager 0, 0, .Put, false⟩

/-- A concrete cache whose pending-write lists are newest-first (one list with
an expired tail, one fully expired), used in the C3 witness. -/
def cacheC3 : Cache :=
  ⟨[], [], [], [(.Immutable 0, [pwAt 10, pwAt 100]), (.Immutable 1, [pwAt 70])]⟩

/-- C3 witness: the theorem applied to `cacheC3`, whose lists are ordered
newest-first. -/
theorem c3_remove_expired_writes_witness :
    cacheC3.removeExpiredWrites.1 =
      cacheC3.pendingWrites.flatMap (fun e => e.2.filter (fun w => decide (60 < w.age))) ∧
    cacheC3.removeExpiredWrites.2.pendingWrites =
      (cacheC3.pendingWrites.map (fun e =>
        (e.1, e.2.filter (fun w => decide (w.age ≤ 60))))).filter
        (fun e => !e.2.isEmpty) :=
  c3_remove_expired_writes cacheC3 (by decide)

/-! ### Claim C9 -/

theorem assocGet_isSome_mem {κ α : Type} [DecidableEq κ] (l : List (κ × α)) (k : κ)
    (h : (assocGet l k).isSome = true) : k ∈ l.map (·.1) := by
  induction l with
  | nil => simp [assocGet] at h
  | cons e rest ih =>
    by_cases he : e.1 = k
    · simp [he]
    · simp only [assocGet, he, if_false] at h
      simp [ih h]

theorem length_filter_key_eq_one {κ α : Type} [DecidableEq κ] (l : List (κ × α)) (k : κ)
    (hsome : (assocGet l k).isSome = true) (hnd : (l.map (·.1)).Nodup) :
    (l.filter (fun e => e.1 == k)).length = 1 := by
  induction l with
  | nil => simp [assocGet] at hsome
  | cons e rest ih =>
    rw [List.map_cons, List.nodup_cons] at hnd
    by_cases he : e.1 = k
    · have hrest : rest.filter (fun e => e.1 == k) = [] := by
        rw [List.filter_eq_nil_iff]
        intro x hx hxk
        rw [beq_iff_eq] at hxk
        exact hnd.1 (he ▸ hxk ▸ List.mem_map_of_mem (·.1) hx)
      simp [List.filter_cons, he, hrest]
    · simp only [assocGet, he, if_false] at hsome
      simp [List.filter_cons, he, ih hsome hnd.2]

/-- C9: immutable Put is idempotent.  If the identifier is already stored,
`handle_put` replies `PutSuccess` immediately and leaves the whole engine
state (chunk store, pending-write ledger, counters) unchanged; hence a second
Put of the same immutable datum leaves the state equally unchanged and also
replies `PutSuccess`, and (under unique store keys) exactly one copy is
stored. -/
theorem c9_immutable_put_idempotent (dm : DataManager) (src dst : Authority)
    (n : XorName) (msgId msgId2 : Nat)
    (hhas : dm.chunkStore.has (.Immutable n) = true)
    (hnd : (dm.chunkStore.entries.map (·.1)).Nodup) :
    dm.handlePut src dst (.Immutable n) msgId =
      (dm, [.PutSuccess dst src (.Immutable n) msgId]) ∧
    (dm.handlePut src dst (.Immutable n) msgId).1.handlePut src dst (.Immutable n) msgId2 =
      (dm, [.PutSuccess dst src (.Immutable n) msgId2]) ∧
    (dm.chunkStore.entries.filter (fun e => e.1 == DataIdentifier.Immutable n)).length = 1 := by
  have h1 : dm.handlePut src dst (.Immutable n) msgId =
      (dm, [.PutSuccess dst src (.Immutable n) msgId]) := by
    simp [DataManager.handlePut, Data.identifier, hhas]
  refine ⟨h1, ?_, ?_⟩
  · rw [h1]
    simp [DataManager.handlePut, Data.identifier, hhas]
  · exact length_filter_key_eq_one dm.chunkStore.entries _ hhas hnd

/-- A concrete engine holding one immutable chunk, used in witnesses. -/
def dmWithImmutable : DataManager :=
  { newDataManager 1000 with chunkStore := ⟨[(.Immutable 4, .Immutable 4)], 1000⟩ }

/-- C9 witness: the theorem applied to a store already holding the immutable
chunk. -/
theorem c9_immutable_put_idempotent_witness :
    dmWithImmutable.handlePut (.Client 1) (.NaeManager 4) (.Immutable 4) 9 =
      (dmWithImmutable, [.PutSuccess (.NaeManager 4) (.Client 1) (.Immutable 4) 9]) ∧
    (dmWithImmutable.handlePut (.Client 1) (.NaeManager 4) (.Immutable 4) 9).1.handlePut
        (.Client 1) (.NaeManager 4) (.Immutable 4) 10 =
      (dmWithImmutable, [.PutSuccess (.NaeManager 4) (.Client 1) (.Immutable 4) 10]) ∧
    (dmWithImmutable.chunkStore.entries.filter
      (fun e => e.1 == DataIdentifier.Immutable 4)).length = 1 :=
  c9_immutable_put_idempotent dmWithImmutable (.Client 1) (.NaeManager 4) 4 9 10
    (by decide) (by decide)

/-! ### Claim C7 -/

/-- The engine state after `update_pending_writes` is the original with the
cache replaced by reaping expired writes then inserting the new one; only the
emitted messages depend on whether a group refresh was triggered. -/
theorem updatePendingWrites_state (dm : DataManager) (data : Data)
    (mt : PendingMutationType) (src dst : Authority) (msgId : Nat) (rejected : Bool) :
    (dm.updatePendingWrites data mt src dst msgId rejected).1 =
      { dm with cache := (dm.cache.removeExpiredWrites.2.insertPendingWrite data mt
          src dst msgId rejected).2 } := by
  simp only [DataManager.updatePendingWrites]
  cases hx : (dm.cache.removeExpiredWrites.2.insertPendingWrite data mt
      src dst msgId rejected).1 <;> simp [hx]

/-- C7, counterexample: as stated the claim is false, because the size guard
runs first.  A Post of an oversized structured datum whose identifier is
absent is answered with `DataTooLarge` — no `NoSuchData` failure is sent and
no pending write is inserted. -/
theorem c7_counterexample :
    Message.PostFailure (.NaeManager 0) (.Client 1) (.Structured 0 1) .NoSuchData 5 ∉
      ((newDataManager 1000).handlePost (.Client 1) (.NaeManager 0)
        (.Structured ⟨0, 1, 0, false, [], false⟩) 5).2 ∧
    ((newDataManager 1000).handlePost (.Client 1) (.NaeManager 0)
      (.Structured ⟨0, 1, 0, false, [], false⟩) 5).1.cache.pendingWrites = [] ∧
    ((newDataManager 1000).chunkStore.get (.Structured 0 1) = none) := by decide

/-- C7 (amended, adding that the datum passes the size validation): a Post of
well-sized structured data whose identifier is absent sends a `PostFailure`
with `NoSuchData` and still inserts a pending write marked rejected at the
head of the identifier's list, while a Post of well-sized pub- or
priv-appendable data whose identifier is absent sends `PostFailure NoSuchData`
and leaves the engine state — in particular the pending-write ledger —
completely unchanged. -/
theorem c7_post_nonexistent (dm : DataManager) (src dst : Authority) (msgId : Nat) :
    (∀ sd : StructuredData, sd.validSize = true →
      dm.chunkStore.get (.Structured sd.name sd.tag) = none →
      Message.PostFailure dst src (.Structured sd.name sd.tag) .NoSuchData msgId ∈
          (dm.handlePost src dst (.Structured sd) msgId).2 ∧
        ∃ tl, assocGetD (dm.handlePost src dst (.Structured sd) msgId).1.cache.pendingWrites
            (.Structured sd.name sd.tag) [] =
          (⟨sipHashOf (.Structured sd) .Post, .Structured sd, 0, src, dst, msgId, .Post, true⟩ :
            PendingWrite) :: tl) ∧
    (∀ ad : AppendableData, ad.validSize = true →
      dm.chunkStore.get (.PubAppendable ad.name) = none →
      dm.handlePost src dst (.PubAppendable ad) msgId =
        (dm, [.PostFailure dst src (.PubAppendable ad.name) .NoSuchData msgId])) ∧
    (∀ ad : AppendableData, ad.validSize = true →
      dm.chunkStore.get (.PrivAppendable ad.name) = none →
      dm.handlePost src dst (.PrivAppendable ad) msgId =
        (dm, [.PostFailure dst src (.PrivAppendable ad.name) .NoSuchData msgId])) := by
  refine ⟨?_, ?_, ?_⟩
  · intro sd hsize hget
    have hid : (Data.Structured sd).identifier = .Structured sd.name sd.tag := rfl
    simp only [DataManager.handlePost, hid, Data.validateSize, hsize, Bool.not_true,
      Bool.false_eq_true, if_false, hget]
    constructor
    · simp [DataManager.postFinish]
    · refine ⟨assocGetD dm.cache.removeExpiredWrites.2.pendingWrites
        (.Structured sd.name sd.tag) [], ?_⟩
      have hstate : ((dm.postFinish src dst (.Structured sd.name sd.tag) (.Structured sd)
          msgId (some .NoSuchData)).1.cache.pendingWrites) =
          (dm.cache.removeExpiredWrites.2.insertPendingWrite (.Structured sd) .Post
            src dst msgId true).2.pendingWrites := by
        simp [DataManager.postFinish, updatePendingWrites_state]
      rw [hstate]
      simp only [Cache.insertPendingWrite]
      exact assocGetD_set_self ..
  · intro ad hsize hget
    have hid : (Data.PubAppendable ad).identifier = .PubAppendable ad.name := rfl
    simp [DataManager.handlePost, hid, Data.validateSize, hsize, hget]
  · intro ad hsize hget
    have hid : (Data.PrivAppendable ad).identifier = .PrivAppendable ad.name := rfl
    simp [DataManager.handlePost, hid, Data.validateSize, hsize, hget]

/-- C7 witness: the amended theorem applied to a fresh engine and well-sized
data with absent identifiers. -/
theorem c7_post_nonexistent_witness :
    (Message.PostFailure (.NaeManager 0) (.Client 1) (.Structured 0 1) .NoSuchData 5 ∈
        ((newDataManager 1000).handlePost (.Client 1) (.NaeManager 0)
          (.Structured ⟨0, 1, 0, false, [], true⟩) 5).2 ∧
      ∃ tl, assocGetD ((newDataManager 1000).handlePost (.Client 1) (.NaeManager 0)
          (.Structured ⟨0, 1, 0, false, [], true⟩) 5).1.cache.pendingWrites
          (.Structured 0 1) [] =
        (⟨sipHashOf (.Structured ⟨0, 1, 0, false, [], true⟩) .Post,
          .Structured ⟨0, 1, 0, false, [], true⟩, 0, .Client 1, .NaeManager 0, 5, .Post, true⟩ :
          PendingWrite) :: tl) ∧
    (newDataManager 1000).handlePost (.Client 1) (.NaeManager 0)
        (.PubAppendable ⟨4, 0, {1}, true⟩) 5 =
      (newDataManager 1000,
       [.PostFailure (.NaeManager 0) (.Client 1) (.PubAppendable 4) .NoSuchData 5]) :=
  ⟨(c7_post_nonexistent (newDataManager 1000) (.Client 1) (.NaeManager 0) 5).1
      ⟨0, 1, 0, false, [], true⟩ (by decide) (by decide),
   (c7_post_nonexistent (newDataManager 1000) (.Client 1) (.NaeManager 0) 5).2.1
      ⟨4, 0, {1}, true⟩ (by decide) (by decide)⟩

/-! ### Claim C8 -/

theorem ChunkStore.get_put_self (s : ChunkStore) (dataId : DataIdentifier) (d : Data) :
    (s.put dataId d).get dataId = some d := by
  simp [ChunkStore.put, ChunkStore.get, assocGet]

theorem sendGets_chunkStore (dm : DataManager) (rt : RoutingView) :
    (sendGetsForNeededData dm rt).1.chunkStore = dm.chunkStore := rfl

/-- C8: on a Get success carrying pub-appendable data whose identifier the
store already holds at the same version, the datum subsequently stored has an
appended-item set equal to the union of the received and previously stored
item sets; symmetrically for priv-appendable data. -/
theorem c8_appendable_get_success_merge (dm : DataManager) (rt : RoutingView)
    (src : XorName) (received stored : AppendableData) :
    (dm.chunkStore.get (.PubAppendable received.name) = some (.PubAppendable stored) →
      stored.version = received.version →
      (rt.closeGroup received.name).isSome = true →
      (dm.handleGetSuccess rt src (.PubAppendable received)).1.chunkStore.get
          (.PubAppendable received.name) =
        some (.PubAppendable { received with data := received.data ∪ stored.data })) ∧
    (dm.chunkStore.get (.PrivAppendable received.name) = some (.PrivAppendable stored) →
      stored.version = received.version →
      (rt.closeGroup received.name).isSome = true →
      (dm.handleGetSuccess rt src (.PrivAppendable received)).1.chunkStore.get
          (.PrivAppendable received.name) =
        some (.PrivAppendable { received with data := received.data ∪ stored.data })) := by
  constructor
  · intro hget hv hclose
    have hlt : ¬(received.version < stored.version) := by omega
    rw [Option.isSome_iff_exists] at hclose
    rcases hclose with ⟨group, hgroup⟩
    simp only [DataManager.handleGetSuccess, idAndVersionOf, Data.identifier,
      DataIdentifier.name, hgroup, Option.isNone_some, Bool.false_eq_true, if_false,
      sendGets_chunkStore, hget, hlt, hv, if_true]
    simp [DataManager.cleanChunkStore, ChunkStore.get_put_self]
  · intro hget hv hclose
    have hlt : ¬(received.version < stored.version) := by omega
    rw [Option.isSome_iff_exists] at hclose
    rcases hclose with ⟨group, hgroup⟩
    simp only [DataManager.handleGetSuccess, idAndVersionOf, Data.identifier,
      DataIdentifier.name, hgroup, Option.isNone_some, Bool.false_eq_true, if_false,
      sendGets_chunkStore, hget, hlt, hv, if_true]
    simp [DataManager.cleanChunkStore, ChunkStore.get_put_self]

/-- A concrete engine holding a pub-appendable chunk at version 2 with items
`{1, 2}`, and its priv-appendable counterpart, used in the C8 witness. -/
def dmC8 : DataManager :=
  { newDataManager 1000 with chunkStore :=
      ⟨[(.PubAppendable 4, .PubAppendable ⟨4, 2, {1, 2}, true⟩),
        (.PrivAppendable 4, .PrivAppendable ⟨4, 2, {1, 2}, true⟩)], 1000⟩ }

/-- C8 witness: receiving `{2, 3}` at the stored version yields the stored
union `{1, 2, 3}`, for both appendable kinds. -/
theorem c8_appendable_get_success_merge_witness :
    (dmC8.handleGetSuccess ⟨7, fun _ => some [3, 5]⟩ 9
        (.PubAppendable ⟨4, 2, {2, 3}, true⟩)).1.chunkStore.get (.PubAppendable 4) =
      some (.PubAppendable ⟨4, 2, ({2, 3} : Finset Nat) ∪ {1, 2}, true⟩) ∧
    (dmC8.handleGetSuccess ⟨7, fun _ => some [3, 5]⟩ 9
        (.PrivAppendable ⟨4, 2, {2, 3}, true⟩)).1.chunkStore.get (.PrivAppendable 4) =
      some (.PrivAppendable ⟨4, 2, ({2, 3} : Finset Nat) ∪ {1, 2}, true⟩) :=
  ⟨(c8_appendable_get_success_merge dmC8 ⟨7, fun _ => some [3, 5]⟩ 9
      ⟨4, 2, {2, 3}, true⟩ ⟨4, 2, {1, 2}, true⟩).1 (by decide) (by decide) (by decide),
   (c8_appendable_get_success_merge dmC8 ⟨7, fun _ => some [3, 5]⟩ 9
      ⟨4, 2, {2, 3}, true⟩ ⟨4, 2, {1, 2}, true⟩).2 (by decide) (by decide) (by decide)⟩

/-! ### Claim C5 -/

theorem assocGet_mem {κ α : Type} [DecidableEq κ] (l : List (κ × α)) (k : κ) (v : α)
    (h : assocGet l k = some v) : (k, v) ∈ l := by
  induction l with
  | nil => simp [assocGet] at h
  | cons e rest ih =>
    obtain ⟨e1, e2⟩ := e
    by_cases he : e1 = k
    · simp only [assocGet, he, if_true, Option.some.injEq] at h
      subst he
      subst h
      exact List.mem_cons_self ..
    · have he' : (e1, e2).1 = k ↔ False := by simpa using he
      simp only [assocGet, he', iff_false, if_neg he] at h
      exact List.mem_cons_of_mem _ (ih h)

/-- C5: once a claimed `(data_id, version)` reaches quorum in
`handle_refresh`, the data is deemed needed exactly per kind — immutable iff
missing, structured iff missing or stored strictly older, appendable iff
missing or stored at the same or an older version — and the voters are added
as holders iff it is needed. -/
theorem c5_handle_refresh_needed (dm : DataManager) (src : XorName)
    (dataId : DataIdentifier) (version : Nat) (holders : List XorName)
    (hwf : dm.chunkStore.wf)
    (hreg : (dm.cache.registerDataWithHolder src (dataId, version)).1 = false)
    (hacc : (dm.refreshAccumulator.add (dataId, version) src).1 = some holders) :
    (dataNeeded dm.chunkStore dataId version = true ↔
      (match dataId with
       | .Immutable _ => dm.chunkStore.has dataId = false
       | .Structured _ _ =>
         dm.chunkStore.get dataId = none ∨
           ∃ sd, dm.chunkStore.get dataId = some (.Structured sd) ∧ sd.version < version
       | .PubAppendable _ =>
         dm.chunkStore.get dataId = none ∨
           ∃ ad, dm.chunkStore.get dataId = some (.PubAppendable ad) ∧ ad.version ≤ version
       | .PrivAppendable _ =>
         dm.chunkStore.get dataId = none ∨
           ∃ ad, dm.chunkStore.get dataId = some (.PrivAppendable ad) ∧ ad.version ≤ version)) ∧
    (dm.handleRefreshOne src (dataId, version)).cache =
      (if dataNeeded dm.chunkStore dataId version then
        dm.cache.addRecords (dataId, version) holders
      else dm.cache) := by
  constructor
  · cases hget : dm.chunkStore.get dataId with
    | none =>
      cases dataId <;> simp [dataNeeded, hget, ChunkStore.has]
    | some d =>
      have hid : d.identifier = dataId :=
        hwf.2 (dataId, d) (assocGet_mem _ _ _ hget)
      cases dataId with
      | Immutable n => simp [dataNeeded, ChunkStore.has, hget]
      | Structured n t =>
        cases d with
        | Structured sd => simp [dataNeeded, hget]
        | _ => simp [Data.identifier] at hid
      | PubAppendable n =>
        cases d with
        | PubAppendable ad => simp [dataNeeded, hget]
        | _ => simp [Data.identifier] at hid
      | PrivAppendable n =>
        cases d with
        | PrivAppendable ad => simp [dataNeeded, hget]
        | _ => simp [Data.identifier] at hid
  · simp only [DataManager.handleRefreshOne, hreg, Bool.false_eq_true, if_false, hacc]
    by_cases hneed : dataNeeded dm.chunkStore dataId version <;> simp [hneed]

/-- A concrete engine whose accumulator is one vote short of quorum for
`(Immutable 6, 0)`, used in the C5 witness. -/
def dmC5 : DataManager :=
  { newDataManager 1000 with refreshAccumulator :=
      ⟨ACCUMULATOR_QUORUM, [((.Immutable 6, 0), [1, 2, 3, 4])]⟩ }

/-- C5 witness: the fifth vote reaches the quorum of 5, the missing immutable
chunk is needed, and the voters become holders. -/
theorem c5_handle_refresh_needed_witness :
    (dataNeeded dmC5.chunkStore (.Immutable 6) 0 = true ↔
      dmC5.chunkStore.has (.Immutable 6) = false) ∧
    (dmC5.handleRefreshOne 5 (.Immutable 6, 0)).cache =
      (if dataNeeded dmC5.chunkStore (.Immutable 6) 0 then
        dmC5.cache.addRecords (.Immutable 6, 0) [1, 2, 3, 4, 5]
      else dmC5.cache) :=
  c5_handle_refresh_needed dmC5 5 (.Immutable 6) 0 [1, 2, 3, 4, 5]
    (by refine ⟨?_, ?_⟩ <;> simp [dmC5, newDataManager, ChunkStore.wf])
    (by decide) (by decide)

/-! ### Claim C6 -/

/-- The response a single pending write elicits in `handle_group_refresh`, per
the spec (§4.4.6): a hash-matching write gets the success reply of its kind
followed by the group's refresh broadcast; a hash-differing write gets a
`NetworkOther("Concurrent modification.")` failure unless it was already
marked rejected, in which case it is dropped silently. -/
def writeResponseSpec (rt : RoutingView) (dataId : DataIdentifier) (version : Nat)
    (refreshHash : Nat) (w : PendingWrite) : List Message :=
  if w.hash = refreshHash then
    [(match w.mutateType with
      | .Append => Message.AppendSuccess w.dst w.src dataId w.messageId
      | .Post => Message.PostSuccess w.dst w.src dataId w.messageId
      | .Put => Message.PutSuccess w.dst w.src dataId w.messageId
      | .Delete => Message.DeleteSuccess w.dst w.src dataId w.messageId),
     Message.RefreshRequest (.ManagedNode rt.name) (.NaeManager dataId.name)
       (.dataList [(dataId, version)]) 0]
  else if w.rejected then []
  else [sendFailureMsg w.mutateType w.src w.dst w.data.identifier w.messageId
    (.NetworkOther ("Concurrent modification."))]

/-- C6: the messages `handle_group_refresh` emits while draining the taken
pending writes are exactly the per-write responses: every hash-differing
non-rejected write receives a `NetworkOther("Concurrent modification.")`
failure, every hash-differing rejected write elicits nothing, and the whole
handler's message list extends this drain-phase list. -/
theorem c6_concurrent_modification (rt : RoutingView) (dataId : DataIdentifier)
    (version refreshHash : Nat) (dm : DataManager) (ws : List PendingWrite)
    (refresh : RefreshData) :
    (processWrites rt dataId version refreshHash dm ws).2.1 =
      ws.flatMap (writeResponseSpec rt dataId version refreshHash) ∧
    (∀ w : PendingWrite, w.hash ≠ refreshHash →
      writeResponseSpec rt dataId version refreshHash w =
        (if w.rejected then []
         else [sendFailureMsg w.mutateType w.src w.dst w.data.identifier w.messageId
           (.NetworkOther ("Concurrent modification."))])) ∧
    (processWrites rt refresh.idv.1 refresh.idv.2 refresh.hash
        { dm with cache := (dm.cache.takePendingWrites refresh.idv.1).2 }
        (dm.cache.takePendingWrites refresh.idv.1).1).2.1 <+:
      (dm.handleGroupRefresh rt refresh).2 := by
  refine ⟨?_, ?_, ?_⟩
  · induction ws generalizing dm with
    | nil => rfl
    | cons w rest ih =>
      by_cases hh : w.hash = refreshHash
      · simp [processWrites, hh, writeResponseSpec, ih]
      · by_cases hr : w.rejected <;>
          simp [processWrites, hh, hr, writeResponseSpec, ih]
  · intro w hw
    simp [writeResponseSpec, hw]
  · cases hsucc : (processWrites rt refresh.idv.1 refresh.idv.2 refresh.hash
        { dm with cache := (dm.cache.takePendingWrites refresh.idv.1).2 }
        (dm.cache.takePendingWrites refresh.idv.1).1).2.2 with
    | true =>
      simp only [DataManager.handleGroupRefresh, hsucc, if_true]
      exact List.prefix_rfl
    | false =>
      cases hcg : rt.closeGroup refresh.idv.1.name with
      | none =>
        simp only [DataManager.handleGroupRefresh, hsucc, Bool.false_eq_true, if_false, hcg]
        exact List.prefix_rfl
      | some group =>
        simp only [DataManager.handleGroupRefresh, hsucc, Bool.false_eq_true, if_false, hcg]
        exact List.prefix_append _ _

/-- C6 witness: the per-write response of a concrete hash-differing write. -/
theorem c6_concurrent_modification_witness :
    writeResponseSpec ⟨7, fun _ => some [3]⟩ (.Immutable 0) 0 5 (pwAt 0) =
      (if (pwAt 0).rejected then []
       else [sendFailureMsg (pwAt 0).mutateType (pwAt 0).src (pwAt 0).dst
         (pwAt 0).data.identifier (pwAt 0).messageId
         (.NetworkOther ("Concurrent modification."))]) :=
  (c6_concurrent_modification ⟨7, fun _ => some [3]⟩ (.Immutable 0) 0 5
    (newDataManager 1000) [] ⟨(.Immutable 0, 0), 5⟩).2.1 (pwAt 0) (by decide)

/-! ### Claim C1 -/

/-- The engine with its cache replaced. -/
def DataManager.withCache (dm : DataManager) (c : Cache) : DataManager :=
  { dm with cache := c }

theorem processWrites_no_match (rt : RoutingView) (dataId : DataIdentifier)
    (version refreshHash : Nat) (dm : DataManager) (ws : List PendingWrite)
    (h : ∀ w ∈ ws, w.hash ≠ refreshHash) :
    processWrites rt dataId version refreshHash dm ws =
      (dm, ws.flatMap (writeResponseSpec rt dataId version refreshHash), false) := by
  induction ws generalizing dm with
  | nil => rfl
  | cons w rest ih =>
    have hw := h w (List.mem_cons_self ..)
    have hrest := ih dm (fun x hx => h x (List.mem_cons_of_mem _ hx))
    by_cases hr : w.rejected <;>
      simp [processWrites, hw, hr, hrest, writeResponseSpec]

theorem exists_holder_of_mem_assocGetD (l : List (XorName × List IdAndVersion))
    (k : XorName) (idv : IdAndVersion) (h : idv ∈ assocGetD l k []) :
    ∃ e ∈ l, idv ∈ e.2 := by
  cases hg : assocGet l k with
  | none => rw [assocGetD, hg] at h; simp at h
  | some v => exact ⟨(k, v), assocGet_mem _ _ _ hg, by rwa [assocGetD, hg] at h⟩

theorem registerDataWithHolder_holds (c : Cache) (node : XorName) (idv : IdAndVersion)
    (h : ∃ e ∈ c.dataHolders, idv ∈ e.2) :
    (∃ e ∈ (c.registerDataWithHolder node idv).2.dataHolders, idv ∈ e.2) ∧
    idv ∈ assocGetD (c.registerDataWithHolder node idv).2.dataHolders node [] ∧
    ∀ m, idv ∈ assocGetD c.dataHolders m [] →
      idv ∈ assocGetD (c.registerDataWithHolder node idv).2.dataHolders m [] := by
  have hany : (c.dataHolders.any fun e => e.2.contains idv) = true := by
    simp only [List.any_eq_true]
    rcases h with ⟨e, he, hm⟩
    exact ⟨e, he, by simpa using hm⟩
  have hmemcur : idv ∈ (if (assocGetD c.dataHolders node []).contains idv then
      assocGetD c.dataHolders node []
    else assocGetD c.dataHolders node [] ++ [idv]) := by
    by_cases hc : (assocGetD c.dataHolders node []).contains idv
    · simp only [hc, if_true]
      simpa using hc
    · have hnm : idv ∉ assocGetD c.dataHolders node [] := by simpa using hc
      simp [hnm]
  have hself : idv ∈ assocGetD (c.registerDataWithHolder node idv).2.dataHolders node [] := by
    simp only [Cache.registerDataWithHolder, hany, if_true]
    rw [assocGetD_set_self]
    exact hmemcur
  refine ⟨exists_holder_of_mem_assocGetD _ _ _ hself, hself, ?_⟩
  intro m hm
  by_cases hmn : m = node
  · subst hmn
    exact hself
  · simp only [Cache.registerDataWithHolder, hany, if_true]
    rw [assocGetD, assocGet_set_ne _ _ _ _ hmn]
    exact hm

theorem seedGroup_holds (group : List XorName) (c : Cache) (idv : IdAndVersion)
    (h : ∃ e ∈ c.dataHolders, idv ∈ e.2) :
    (∀ node ∈ group, idv ∈ assocGetD (seedGroup c group idv).dataHolders node []) ∧
    (∀ m, idv ∈ assocGetD c.dataHolders m [] →
      idv ∈ assocGetD (seedGroup c group idv).dataHolders m []) ∧
    (∃ e ∈ (seedGroup c group idv).dataHolders, idv ∈ e.2) := by
  induction group generalizing c with
  | nil => exact ⟨by simp, fun m hm => hm, h⟩
  | cons n rest ih =>
    have hreg := registerDataWithHolder_holds c n idv h
    have hseed : seedGroup c (n :: rest) idv =
        seedGroup (c.registerDataWithHolder n idv).2 rest idv := rfl
    have ihr := ih (c.registerDataWithHolder n idv).2 hreg.1
    refine ⟨?_, ?_, hseed ▸ ihr.2.2⟩
    · intro node hnode
      rw [hseed]
      rcases List.mem_cons.mp hnode with hn | hn
      · subst hn
        exact ihr.2.1 node hreg.2.1
      · exact ihr.1 node hn
    · intro m hm
      rw [hseed]
      exact ihr.2.1 m (hreg.2.2 m hm)

/-- C1, counterexample: the claim is false because the seeding loop uses
`register_data_with_holder`, which records nothing unless some peer is already
known to hold the id-and-version.  On a group refresh whose data is held by
nobody, no close-group member is recorded and no fetch is started: the cache's
holder map and ongoing Gets stay empty and no message is sent. -/
theorem c1_counterexample :
    ((newDataManager 1000).handleGroupRefresh ⟨7, fun _ => some [3]⟩
        ⟨(.Immutable 1, 0), 42⟩).1.cache.dataHolders = [] ∧
    ((newDataManager 1000).handleGroupRefresh ⟨7, fun _ => some [3]⟩
        ⟨(.Immutable 1, 0), 42⟩).1.cache.ongoingGets = [] ∧
    ((newDataManager 1000).handleGroupRefresh ⟨7, fun _ => some [3]⟩
        ⟨(.Immutable 1, 0), 42⟩).2 = [] := by decide

/-- C1 (amended): in `handle_group_refresh`, when no taken pending write's
hash equals the refreshed hash and the close group for the data name exists
AND some peer is already recorded as a holder of `(data_id, version)`, every
member of the close group is recorded in the seeded cache as a holder of
`(data_id, version)`, and the handler finishes by running the fetch scheduler
(`send_gets_for_needed_data`) on exactly that seeded cache; with no prior
holder the seeding loop records nothing. -/
theorem c1_group_refresh_seeds (dm : DataManager) (rt : RoutingView)
    (dataId : DataIdentifier) (version refreshHash : Nat) (group : List XorName)
    (hno : ∀ w ∈ assocGetD dm.cache.pendingWrites dataId [], w.hash ≠ refreshHash)
    (hgroup : rt.closeGroup dataId.name = some group)
    (hheld : ∃ e ∈ dm.cache.dataHolders, (dataId, version) ∈ e.2) :
    (∀ node ∈ group, (dataId, version) ∈ assocGetD
      (seedGroup (dm.cache.takePendingWrites dataId).2 group (dataId, version)).dataHolders
      node []) ∧
    dm.handleGroupRefresh rt ⟨(dataId, version), refreshHash⟩ =
      ((sendGetsForNeededData (dm.withCache
          (seedGroup (dm.cache.takePendingWrites dataId).2 group (dataId, version))) rt).1,
       (assocGetD dm.cache.pendingWrites dataId []).flatMap
           (writeResponseSpec rt dataId version refreshHash) ++
         (sendGetsForNeededData (dm.withCache
           (seedGroup (dm.cache.takePendingWrites dataId).2 group (dataId, version))) rt).2) := by
  have htake : (dm.cache.takePendingWrites dataId).2.dataHolders = dm.cache.dataHolders := rfl
  have hseed := seedGroup_holds group (dm.cache.takePendingWrites dataId).2 (dataId, version)
    (htake ▸ hheld)
  refine ⟨hseed.1, ?_⟩
  have hpw := processWrites_no_match rt dataId version refreshHash
    (dm.withCache (dm.cache.takePendingWrites dataId).2)
    (dm.cache.takePendingWrites dataId).1 hno
  simp only [DataManager.handleGroupRefresh, DataManager.withCache] at hpw ⊢
  simp only [hpw, hgroup]
  rfl

/-- A concrete cache where peer 9 already holds `(Immutable 1, 0)`, used in
the C1 witness. -/
def cacheC1 : Cache := { Cache.default with dataHolders := [(9, [(.Immutable 1, 0)])] }

/-- A concrete engine with `cacheC1`, used in the C1 witness. -/
def dmC1 : DataManager := { newDataManager 1000 with cache := cacheC1 }

/-- C1 witness: with a prior holder, both close-group members are seeded as
holders. -/
theorem c1_group_refresh_seeds_witness :
    ((.Immutable 1 : DataIdentifier), 0) ∈ assocGetD
      (seedGroup (dmC1.cache.takePendingWrites (.Immutable 1)).2 [3, 5]
        (.Immutable 1, 0)).dataHolders 3 [] ∧
    ((.Immutable 1 : DataIdentifier), 0) ∈ assocGetD
      (seedGroup (dmC1.cache.takePendingWrites (.Immutable 1)).2 [3, 5]
        (.Immutable 1, 0)).dataHolders 5 [] :=
  ⟨(c1_group_refresh_seeds dmC1 ⟨7, fun _ => some [3, 5]⟩ (.Immutable 1) 0 42 [3, 5]
      (by decide) (by simp) (by decide)).1 3 (by decide),
   (c1_group_refresh_seeds dmC1 ⟨7, fun _ => some [3, 5]⟩ (.Immutable 1) 0 42 [3, 5]
      (by decide) (by simp) (by decide)).1 5 (by decide)⟩

/-! ### Claim C10 -/

theorem foldl_preserve {α β : Type} {f : α → β → α} {P : α → Prop}
    (hstep : ∀ a b, P a → P (f a b)) :
    ∀ (l : List β) (a : α), P a → P (l.foldl f a) := by
  intro l
  induction l with
  | nil => exact fun a ha => ha
  | cons b rest ih => exact fun a ha => ih _ (hstep a b ha)

theorem cleanLoop_mem (q : List DataIdentifier) (s : ChunkStore) :
    ∀ dataId ∈ (cleanLoop q s).2, dataId ∈ q := by
  induction q generalizing s with
  | nil => simp [cleanLoop]
  | cons x rest ih =>
    intro dataId hid
    simp only [cleanLoop] at hid
    by_cases hf : chunkStoreFull s.usedSpace s.maxSpace = true
    · rw [if_pos hf] at hid
      exact List.mem_cons_of_mem _ (ih (s.delete x) dataId hid)
    · rw [if_neg hf] at hid
      exact hid

theorem cleanChunkStore_unneeded (dm : DataManager) :
    ∀ dataId ∈ dm.cleanChunkStore.cache.unneededChunks,
      dataId ∈ dm.cache.unneededChunks :=
  cleanLoop_mem dm.cache.unneededChunks dm.chunkStore

theorem updatePendingWrites_unneeded (dm : DataManager) (data : Data)
    (mt : PendingMutationType) (src dst : Authority) (msgId : Nat) (rejected : Bool) :
    (dm.updatePendingWrites data mt src dst msgId rejected).1.cache.unneededChunks =
      dm.cache.unneededChunks := by
  rw [updatePendingWrites_state]
  rfl

theorem foldl_fst_unneeded_eq {α β : Type} (g : α → List DataIdentifier)
    (f : α → β → α) (hstep : ∀ a b, g (f a b) = g a) :
    ∀ (l : List β) (a : α), g (l.foldl f a) = g a := by
  intro l
  induction l with
  | nil => intro a; rfl
  | cons b rest ih =>
    intro a
    rw [List.foldl_cons, ih, hstep]

theorem sendGetsStep_unneeded (rt : RoutingView) (src : Authority)
    (acc : Cache × List Message) (cand : XorName × IdAndVersion) :
    (sendGetsStep rt src acc cand).1.unneededChunks = acc.1.unneededChunks := by
  unfold sendGetsStep
  cases rt.closeGroup cand.2.1.name with
  | none => rfl
  | some group =>
    by_cases h : cand.1 ∈ group <;> simp [h, Cache.insertIntoOngoingGets]

theorem sendGets_unneeded (dm : DataManager) (rt : RoutingView) :
    (sendGetsForNeededData dm rt).1.cache.unneededChunks = dm.cache.unneededChunks := by
  unfold sendGetsForNeededData
  exact foldl_fst_unneeded_eq (fun acc => acc.1.unneededChunks)
    (sendGetsStep rt (Authority.ManagedNode rt.name))
    (fun a b => sendGetsStep_unneeded rt (Authority.ManagedNode rt.name) a b)
    dm.cache.neededData.2 (dm.cache.neededData.1, [])

theorem countAddedData_cache (dm : DataManager) (dataId : DataIdentifier) :
    (dm.countAddedData dataId).cache = dm.cache := by
  cases dataId <;> rfl

theorem countRemovedData_cache (dm : DataManager) (dataId : DataIdentifier) :
    (dm.countRemovedData dataId).cache = dm.cache := by
  cases dataId <;> rfl

theorem cacheHandleGetSuccess_unneeded (c : Cache) (src : XorName)
    (dataId : DataIdentifier) (version : Nat) :
    (c.handleGetSuccess src dataId version).unneededChunks = c.unneededChunks := by
  unfold Cache.handleGetSuccess
  cases assocGet c.ongoingGets src with
  | none => rfl
  | some p =>
    obtain ⟨ts, idv⟩ := p
    by_cases h : idv.1 ≠ dataId <;> simp [h]

theorem cacheHandleGetFailure_unneeded (c : Cache) (src : XorName)
    (dataId : DataIdentifier) :
    (c.handleGetFailure src dataId).2.unneededChunks = c.unneededChunks := by
  unfold Cache.handleGetFailure
  cases assocGet c.ongoingGets src with
  | none => rfl
  | some p =>
    obtain ⟨ts, idv⟩ := p
    by_cases h : idv.1 = dataId <;> simp [h]

theorem registerDataWithHolder_unneeded (c : Cache) (src : XorName) (idv : IdAndVersion) :
    (c.registerDataWithHolder src idv).2.unneededChunks = c.unneededChunks := by
  unfold Cache.registerDataWithHolder
  cases h : c.dataHolders.any fun e => e.2.contains idv <;> simp [h]

theorem addRecords_unneeded (c : Cache) (idv : IdAndVersion) (holders : List XorName) :
    (c.addRecords idv holders).unneededChunks = c.unneededChunks := by
  unfold Cache.addRecords
  exact foldl_fst_unneeded_eq Cache.unneededChunks
    (fun c holder =>
      let cur := assocGetD c.dataHolders holder []
      let cur' := if cur.contains idv then cur else cur ++ [idv]
      { c with dataHolders := assocSet c.dataHolders holder cur' })
    (fun a b => rfl) holders c

theorem seedGroup_unneeded (c : Cache) (group : List XorName) (idv : IdAndVersion) :
    (seedGroup c group idv).unneededChunks = c.unneededChunks := by
  unfold seedGroup
  exact foldl_fst_unneeded_eq Cache.unneededChunks
    (fun c node => (c.registerDataWithHolder node idv).2)
    (fun a b => registerDataWithHolder_unneeded a b idv) group c

theorem processWrites_cache (rt : RoutingView) (dataId : DataIdentifier)
    (version refreshHash : Nat) (dm : DataManager) (ws : List PendingWrite) :
    (processWrites rt dataId version refreshHash dm ws).1.cache = dm.cache := by
  induction ws generalizing dm with
  | nil => rfl
  | cons w rest ih =>
    by_cases hh : w.hash = refreshHash
    · by_cases hput : dm.chunkStore.has dataId <;>
        cases hmt : w.mutateType <;>
        simp [processWrites, hh, hput, hmt, ih, countAddedData_cache]
    · by_cases hr : w.rejected <;> simp [processWrites, hh, hr, ih]

theorem handleRefreshOne_unneeded (dm : DataManager) (src : XorName)
    (idv : IdAndVersion) :
    (dm.handleRefreshOne src idv).cache.unneededChunks = dm.cache.unneededChunks := by
  unfold DataManager.handleRefreshOne
  by_cases hreg : (dm.cache.registerDataWithHolder src idv).1 = true
  · simp [hreg, registerDataWithHolder_unneeded]
  · simp only [hreg]
    cases (dm.refreshAccumulator.add idv src).1 with
    | none => simp
    | some holders =>
      by_cases hneed : dataNeeded dm.chunkStore idv.1 idv.2 = true <;>
        simp [hneed, addRecords_unneeded]

theorem pruneDataHolders_unneeded (c : Cache) (table : RoutingTableView) :
    (c.pruneDataHolders table).unneededChunks = c.unneededChunks := rfl

theorem pruneOngoingGets_unneeded (c : Cache) (table : RoutingTableView) :
    (c.pruneOngoingGets table).2.unneededChunks = c.unneededChunks := by
  unfold Cache.pruneOngoingGets
  by_cases h : ((c.ongoingGets.filter (fun e =>
      match table.otherClosestNames e.2.2.1.name with
      | none => true
      | some group => !group.contains e.1)).map (·.1)).isEmpty = true
  · rw [if_pos h]
  · rw [if_neg h]

theorem pruneUnneededChunks_unneeded (c : Cache) (table : RoutingTableView) :
    ∀ dataId ∈ (c.pruneUnneededChunks table).2.unneededChunks,
      dataId ∈ c.unneededChunks := by
  unfold Cache.pruneUnneededChunks
  by_cases h : ((c.unneededChunks.filter
      (fun dataId => table.isClosest dataId.name)).dedup).isEmpty = true
  · rw [if_pos h]
    intro dataId hid
    exact hid
  · rw [if_neg h]
    intro dataId hid
    exact (List.mem_filter.mp hid).1

theorem ifSendGets_unneeded (b : Bool) (dm : DataManager) (rt : RoutingView)
    (msgs : List Message) :
    ((if b = true then sendGetsForNeededData dm rt
      else (dm, msgs)).1.cache.unneededChunks) = dm.cache.unneededChunks := by
  split
  · rw [sendGets_unneeded]
  · rfl

theorem handleGet_unneeded (dm : DataManager) (src dst : Authority)
    (dataId : DataIdentifier) (msgId : Nat) :
    (dm.handleGet src dst dataId msgId).1.cache.unneededChunks =
      dm.cache.unneededChunks := by
  cases src <;> (dsimp only [DataManager.handleGet]; split <;> rfl)

theorem putRest_unneeded (dm : DataManager) (src dst : Authority) (data : Data)
    (msgId : Nat) (valid : Bool) :
    ∀ dataId ∈ (dm.putRest src dst data msgId valid).1.cache.unneededChunks,
      dataId ∈ dm.cache.unneededChunks := by
  intro dataId hid
  refine cleanChunkStore_unneeded dm dataId ?_
  simp only [DataManager.putRest] at hid
  split at hid
  · split at hid
    · exact hid
    · have hid2 : dataId ∈ (dm.cleanChunkStore.updatePendingWrites data .Put src dst
          msgId (!valid)).1.cache.unneededChunks := hid
      rw [updatePendingWrites_unneeded] at hid2
      exact hid2
  · have hid2 : dataId ∈ (dm.cleanChunkStore.updatePendingWrites data .Put src dst
        msgId false).1.cache.unneededChunks := hid
    rw [updatePendingWrites_unneeded] at hid2
    exact hid2

theorem handlePut_unneeded (dm : DataManager) (src dst : Authority) (data : Data)
    (msgId : Nat) :
    ∀ dataId ∈ (dm.handlePut src dst data msgId).1.cache.unneededChunks,
      dataId ∈ dm.cache.unneededChunks := by
  intro dataId hid
  simp only [DataManager.handlePut] at hid
  split at hid
  · split at hid
    · exact hid
    · exact putRest_unneeded dm src dst data msgId _ dataId hid
  · exact putRest_unneeded dm src dst data msgId true dataId hid

theorem postFinish_unneeded (dm : DataManager) (src dst : Authority)
    (dataId : DataIdentifier) (data : Data) (msgId : Nat)
    (errorOpt : Option MutationError) :
    (dm.postFinish src dst dataId data msgId errorOpt).1.cache.unneededChunks =
      dm.cache.unneededChunks :=
  updatePendingWrites_unneeded dm data .Post src dst msgId errorOpt.isSome

theorem handlePost_unneeded (dm : DataManager) (src dst : Authority)
    (newData : Data) (msgId : Nat) :
    (dm.handlePost src dst newData msgId).1.cache.unneededChunks =
      dm.cache.unneededChunks := by
  simp only [DataManager.handlePost]
  split
  · rfl
  · split <;>
      first
        | rfl
        | exact postFinish_unneeded ..
        | (split <;> first | rfl | exact postFinish_unneeded ..)

theorem handleDelete_unneeded (dm : DataManager) (src dst : Authority)
    (newData : StructuredData) (msgId : Nat) :
    (dm.handleDelete src dst newData msgId).1.cache.unneededChunks =
      dm.cache.unneededChunks := by
  simp only [DataManager.handleDelete]
  split
  · split <;> exact updatePendingWrites_unneeded ..
  · rfl
  · rfl

theorem appendRest_unneeded (dm : DataManager) (src dst : Authority)
    (dataId : DataIdentifier) (data : Data) (msgId : Nat) :
    (dm.appendRest src dst dataId data msgId).1.cache.unneededChunks =
      dm.cache.unneededChunks := by
  simp only [DataManager.appendRest]
  split
  · rfl
  · exact updatePendingWrites_unneeded ..

theorem handleAppend_unneeded (dm : DataManager) (src dst : Authority)
    (wrapper : AppendWrapper) (msgId : Nat) :
    (dm.handleAppend src dst wrapper msgId).1.cache.unneededChunks =
      dm.cache.unneededChunks := by
  simp only [DataManager.handleAppend]
  split <;>
    first
      | rfl
      | (split <;> first | rfl | exact appendRest_unneeded ..)

theorem handleGetSuccess_unneeded (dm : DataManager) (rt : RoutingView)
    (src : XorName) (data : Data) :
    ∀ dataId ∈ (dm.handleGetSuccess rt src data).1.cache.unneededChunks,
      dataId ∈ dm.cache.unneededChunks := by
  intro dataId hid
  have hbase : ∀ x ∈ (sendGetsForNeededData { dm with
      cache := dm.cache.handleGetSuccess src (idAndVersionOf data).1
        (idAndVersionOf data).2 } rt).1.cache.unneededChunks,
      x ∈ dm.cache.unneededChunks := by
    intro x hx
    rw [sendGets_unneeded] at hx
    have hx2 : x ∈ (dm.cache.handleGetSuccess src (idAndVersionOf data).1
        (idAndVersionOf data).2).unneededChunks := hx
    rw [cacheHandleGetSuccess_unneeded] at hx2
    exact hx2
  simp only [DataManager.handleGetSuccess] at hid
  split at hid
  · exact hbase dataId hid
  · split at hid
    · exact hbase dataId hid
    · split at hid <;>
      · have hid2 : dataId ∈ (sendGetsForNeededData { dm with
            cache := dm.cache.handleGetSuccess src (idAndVersionOf data).1
              (idAndVersionOf data).2 } rt).1.cleanChunkStore.cache.unneededChunks := by
          first
            | exact hid
            | (have h3 := hid; rw [countAddedData_cache] at h3; exact h3)
        exact hbase dataId
          (cleanChunkStore_unneeded _ dataId hid2)

theorem handleGetFailure_unneeded (dm : DataManager) (rt : RoutingView)
    (src : XorName) (dataId : DataIdentifier) :
    (dm.handleGetFailure rt src dataId).1.cache.unneededChunks =
      dm.cache.unneededChunks := by
  simp only [DataManager.handleGetFailure]
  have hc : ((dm.cache.handleGetFailure src dataId).2).unneededChunks =
      dm.cache.unneededChunks := cacheHandleGetFailure_unneeded ..
  split
  · rw [sendGets_unneeded]
    exact hc
  · exact hc

theorem handleRefresh_unneeded (dm : DataManager) (rt : RoutingView)
    (src : XorName) (dataList : List IdAndVersion) :
    (dm.handleRefresh rt src dataList).1.cache.unneededChunks =
      dm.cache.unneededChunks := by
  unfold DataManager.handleRefresh
  rw [sendGets_unneeded]
  exact foldl_fst_unneeded_eq (fun dm => dm.cache.unneededChunks)
    (fun dm idv => dm.handleRefreshOne src idv)
    (fun a b => handleRefreshOne_unneeded a src b) dataList dm

theorem handleGroupRefresh_unneeded (dm : DataManager) (rt : RoutingView)
    (refresh : RefreshData) :
    (dm.handleGroupRefresh rt refresh).1.cache.unneededChunks =
      dm.cache.unneededChunks := by
  have hpc : ∀ (dmx : DataManager) (ws : List PendingWrite),
      (processWrites rt refresh.idv.1 refresh.idv.2 refresh.hash dmx ws).1.cache.unneededChunks =
        dmx.cache.unneededChunks := by
    intro dmx ws
    rw [processWrites_cache]
  simp only [DataManager.handleGroupRefresh]
  split
  · rw [hpc]
    rfl
  · split
    · rename_i group heq
      rw [sendGets_unneeded]
      have h1 : (seedGroup (processWrites rt refresh.idv.1 refresh.idv.2 refresh.hash
          { dm with cache := (dm.cache.takePendingWrites refresh.idv.1).2 }
          (dm.cache.takePendingWrites refresh.idv.1).1).1.cache group
          (refresh.idv.1, refresh.idv.2)).unneededChunks =
          dm.cache.unneededChunks := by
        rw [seedGroup_unneeded, processWrites_cache]
        rfl
      exact h1
    · rw [hpc]
      rfl

theorem nodeAddedStep_unneeded (table : RoutingTableView) (nodeName : XorName)
    (acc : DataManager × List IdAndVersion) (dataIdv : IdAndVersion) :
    ∀ dataId ∈ (nodeAddedStep table nodeName acc dataIdv).1.cache.unneededChunks,
      dataId ∈ acc.1.cache.unneededChunks ∨ ∃ n, dataId = DataIdentifier.Immutable n := by
  intro dataId hid
  unfold nodeAddedStep at hid
  split at hid
  · split at hid
    · split at hid
      · rename_i name heq
        have hid2 : dataId ∈
            ((acc.1.countRemovedData dataIdv.1).cache.addAsUnneeded dataIdv.1).unneededChunks :=
          hid
        simp only [Cache.addAsUnneeded, countRemovedData_cache, List.mem_append,
          List.mem_singleton] at hid2
        rcases hid2 with hl | hr
        · exact Or.inl hl
        · exact Or.inr ⟨name, by rw [hr, heq]⟩
      · have hid2 : dataId ∈ (acc.1.countRemovedData dataIdv.1).cache.unneededChunks := hid
        rw [countRemovedData_cache] at hid2
        exact Or.inl hid2
    · exact Or.inl hid
  · split at hid
    · exact Or.inl hid
    · exact Or.inl hid

theorem nodeAdded_fold_unneeded (table : RoutingTableView) (nodeName : XorName)
    (l : List IdAndVersion) (start : DataManager × List IdAndVersion)
    (base : List DataIdentifier)
    (hstart : ∀ x ∈ start.1.cache.unneededChunks,
      x ∈ base ∨ ∃ n, x = DataIdentifier.Immutable n) :
    ∀ x ∈ (l.foldl (nodeAddedStep table nodeName) start).1.cache.unneededChunks,
      x ∈ base ∨ ∃ n, x = DataIdentifier.Immutable n := by
  refine @foldl_preserve _ _ (nodeAddedStep table nodeName)
    (fun acc => ∀ x ∈ acc.1.cache.unneededChunks,
      x ∈ base ∨ ∃ n, x = DataIdentifier.Immutable n) ?_ l start hstart
  intro a b ha x hx
  rcases nodeAddedStep_unneeded table nodeName a b x hx with h | h
  · exact ha x h
  · exact Or.inr h

theorem handleNodeAdded_unneeded (dm : DataManager) (rt : RoutingView)
    (nodeName : XorName) (table : RoutingTableView) :
    ∀ dataId ∈ (dm.handleNodeAdded rt nodeName table).1.cache.unneededChunks,
      dataId ∈ dm.cache.unneededChunks ∨ ∃ n, dataId = DataIdentifier.Immutable n := by
  intro dataId hid
  have hB : ∀ x ∈ ((dm.cache.pruneDataHolders table).pruneOngoingGets table).2.unneededChunks,
      x ∈ dm.cache.unneededChunks := by
    intro x hx
    rw [pruneOngoingGets_unneeded, pruneDataHolders_unneeded] at hx
    exact hx
  have hA : ∀ x ∈ (sendGetsForNeededData { dm with cache := ((dm.cache.pruneDataHolders table).pruneOngoingGets table).2 } rt).1.cache.unneededChunks,
      x ∈ dm.cache.unneededChunks := by
    intro x hx
    rw [sendGets_unneeded] at hx
    exact hB x hx
  simp only [DataManager.handleNodeAdded] at hid
  split at hid
  · split at hid
    · refine nodeAdded_fold_unneeded table nodeName _ _ dm.cache.unneededChunks ?_ dataId hid
      exact fun x hx => Or.inl (hA x hx)
    · refine nodeAdded_fold_unneeded table nodeName _ _ dm.cache.unneededChunks ?_ dataId hid
      exact fun x hx => Or.inl (hA x hx)
  · split at hid
    · refine nodeAdded_fold_unneeded table nodeName _ _ dm.cache.unneededChunks ?_ dataId hid
      exact fun x hx => Or.inl (hB x hx)
    · refine nodeAdded_fold_unneeded table nodeName _ _ dm.cache.unneededChunks ?_ dataId hid
      exact fun x hx => Or.inl (hB x hx)

theorem handleNodeLost_unneeded (dm : DataManager) (rt : RoutingView)
    (nodeName : XorName) (table : RoutingTableView) :
    ∀ dataId ∈ (dm.handleNodeLost rt nodeName table).1.cache.unneededChunks,
      dataId ∈ dm.cache.unneededChunks := by
  intro dataId hid
  simp only [DataManager.handleNodeLost] at hid
  rw [ifSendGets_unneeded] at hid
  have hid2 : dataId ∈ (((dm.cache.pruneUnneededChunks table).2.pruneDataHolders
      table).pruneOngoingGets table).2.unneededChunks := hid
  rw [pruneOngoingGets_unneeded, pruneDataHolders_unneeded] at hid2
  exact pruneUnneededChunks_unneeded dm.cache table dataId hid2

theorem checkTimeouts_unneeded (dm : DataManager) (rt : RoutingView) :
    (dm.checkTimeouts rt).1.cache.unneededChunks = dm.cache.unneededChunks :=
  sendGets_unneeded dm rt

theorem foldl_filter_eq {α β : Type} (l : List α) (records : List β) (p : α → β → Bool) :
    l.foldl (fun recs a => recs.filter (p a)) records =
      records.filter (fun b => l.all (fun a => p a b)) := by
  induction l generalizing records with
  | nil => simp
  | cons a rest ih =>
    rw [List.foldl_cons, ih, List.filter_filter]
    refine List.filter_congr ?_
    intro b hb
    simp [Bool.and_comm]

/-- C10: every public operation preserves the invariant that the unneeded
chunk queue holds only immutable identifiers (the only insertion site, in
`handle_node_added`, enqueues only the immutable case); consequently — since
immutable data always has version 0 — when every cached record with an
immutable id carries version 0, `chain_records_in_cache`'s removal of
`(data_id, 0)` for each unneeded chunk excludes exactly the records whose id
is unneeded. -/
theorem c10_unneeded_immutable :
    (∀ dm dm', Step dm dm' → UnneededAllImmutable dm → UnneededAllImmutable dm') ∧
    (∀ (c : Cache) (recs : List IdAndVersion),
      (∀ dataId ∈ c.unneededChunks, ∃ n, dataId = DataIdentifier.Immutable n) →
      (∀ r ∈ c.allCacheRecords recs,
        (∃ n, (r : IdAndVersion).1 = DataIdentifier.Immutable n) → r.2 = 0) →
      c.chainRecordsInCache recs =
        (c.allCacheRecords recs).filter (fun r => !c.unneededChunks.contains r.1)) := by
  constructor
  · intro dm dm' hstep hinv
    cases hstep with
    | get src dst dataId msgId =>
      intro id hid
      rw [handleGet_unneeded] at hid
      exact hinv id hid
    | put src dst data msgId =>
      intro id hid
      exact hinv id (handlePut_unneeded dm src dst data msgId id hid)
    | post src dst newData msgId =>
      intro id hid
      rw [handlePost_unneeded] at hid
      exact hinv id hid
    | delete src dst newData msgId =>
      intro id hid
      rw [handleDelete_unneeded] at hid
      exact hinv id hid
    | append src dst wrapper msgId =>
      intro id hid
      rw [handleAppend_unneeded] at hid
      exact hinv id hid
    | getSuccess rt src data =>
      intro id hid
      exact hinv id (handleGetSuccess_unneeded dm rt src data id hid)
    | getFailure rt src dataId =>
      intro id hid
      rw [handleGetFailure_unneeded] at hid
      exact hinv id hid
    | refresh rt src dataList =>
      intro id hid
      rw [handleRefresh_unneeded] at hid
      exact hinv id hid
    | groupRefresh rt refresh =>
      intro id hid
      rw [handleGroupRefresh_unneeded] at hid
      exact hinv id hid
    | nodeAdded rt nodeName table =>
      intro id hid
      rcases handleNodeAdded_unneeded dm rt nodeName table id hid with h | h
      · exact hinv id h
      · exact h
    | nodeLost rt nodeName table =>
      intro id hid
      exact hinv id (handleNodeLost_unneeded dm rt nodeName table id hid)
    | timeouts rt =>
      intro id hid
      rw [checkTimeouts_unneeded] at hid
      exact hinv id hid
  · intro c recs hImm hVer
    unfold Cache.chainRecordsInCache
    rw [foldl_filter_eq]
    refine List.filter_congr ?_
    intro r hr
    by_cases hru : r.1 ∈ c.unneededChunks
    · have hv : r.2 = 0 := hVer r hr (hImm r.1 hru)
      have hcontains : c.unneededChunks.contains r.1 = true := by simpa using hru
      rw [hcontains]
      cases hall : c.unneededChunks.all (fun dataId => !(r == (dataId, 0))) with
      | false => rfl
      | true =>
        exfalso
        have h1 := (List.all_eq_true.mp hall) r.1 hru
        have hr0 : r = (r.1, 0) := by
          obtain ⟨a, b⟩ := r
          simp only at hv
          rw [hv]
        rw [← hr0] at h1
        simp at h1
    · have hcontains : c.unneededChunks.contains r.1 = false := by simpa using hru
      have hall : c.unneededChunks.all (fun dataId => !(r == (dataId, 0))) = true := by
        rw [List.all_eq_true]
        intro dataId hd
        simp only [Bool.not_eq_true']
        rw [beq_eq_false_iff_ne]
        intro hcontra
        have h2 : r.1 = dataId := by rw [hcontra]
        exact hru (h2 ▸ hd)
      rw [hall, hcontains]
      rfl

/-- C10 witness: one concrete step out of the empty engine preserves the
invariant, and the chain-records identity at a concrete cache and record
list. -/
theorem c10_unneeded_immutable_witness :
    UnneededAllImmutable ((newDataManager 1000).handleGet (.Client 0) (.NaeManager 0)
      (.Immutable 0) 0).1 ∧
    Cache.default.chainRecordsInCache [(.Immutable 1, 0)] =
      (Cache.default.allCacheRecords [(.Immutable 1, 0)]).filter
        (fun r => !Cache.default.unneededChunks.contains r.1) :=
  ⟨c10_unneeded_immutable.1 (newDataManager 1000) _
      (Step.get (newDataManager 1000) (.Client 0) (.NaeManager 0) (.Immutable 0) 0)
      (fun id hid => absurd hid (List.not_mem_nil id)),
   c10_unneeded_immutable.2 Cache.default [(.Immutable 1, 0)]
      (fun id hid => absurd hid (List.not_mem_nil id))
      (fun r hr _ => by
        have h1 : r = (DataIdentifier.Immutable 1, 0) := List.mem_singleton.mp hr
        rw [h1])⟩

end Vault
